import Mathlib

/-!
# Backport reconciliation engine of `pm` (`main.go`, function `mergePR`)

A shallow embedding of `mergePR` and of the helpers it calls.  The git command
runner and the code-hosting API are external collaborators: they are modelled
by an environment `Env` whose answers may depend on the whole history of
effects issued so far, and every effect of the program is recorded, in order,
in a trace of `Event`s.
-/

set_option autoImplicit false

/-! ## The parts of Go's `strings` package used by `mergePR` -/

namespace strings

/-- Prefix test on character lists (`strings.HasPrefix`). -/
def hasPrefixL : List Char → List Char → Bool
  | _, [] => true
  | [], _ :: _ => false
  | c :: s, d :: p => c == d && hasPrefixL s p

/-- Substring test on character lists (`strings.Contains`). -/
def containsL : List Char → List Char → Bool
  | [], sub => hasPrefixL [] sub
  | c :: s, sub => hasPrefixL (c :: s) sub || containsL s sub

/-- Go `strings.Contains(s, substr)`. -/
def Contains (s substr : String) : Bool := containsL s.data substr.data

/-- Go `strings.HasPrefix(s, prefix)`. -/
def HasPrefix (s pre : String) : Bool := hasPrefixL s.data pre.data

/-- Go `strings.TrimPrefix(s, prefix)`: `s` without the leading `prefix`, or
`s` itself when it does not start with `prefix`. -/
def TrimPrefix (s pre : String) : String :=
  if HasPrefix s pre then ⟨s.data.drop pre.data.length⟩ else s

/-- Go `unicode.IsSpace`: the white space characters `strings.TrimSpace` cuts. -/
def isSpace (c : Char) : Bool :=
  c = '\t' || c = '\n' || c.toNat = 0x0B || c.toNat = 0x0C || c = '\r' || c = ' '
    || c.toNat = 0x85 || c.toNat = 0xA0 || c.toNat = 0x1680
    || (0x2000 ≤ c.toNat && c.toNat ≤ 0x200A)
    || c.toNat = 0x2028 || c.toNat = 0x2029 || c.toNat = 0x202F
    || c.toNat = 0x205F || c.toNat = 0x3000

/-- Go `strings.TrimSpace(s)`: leading and trailing white space removed. -/
def TrimSpace (s : String) : String :=
  ⟨((s.data.dropWhile isSpace).reverse.dropWhile isSpace).reverse⟩

/-- Pieces of a character list between the occurrences of `sep`. -/
def splitL (sep : Char) : List Char → List (List Char)
  | [] => [[]]
  | c :: cs =>
    if c = sep then [] :: splitL sep cs
    else
      match splitL sep cs with
      | [] => [[c]]
      | l :: ls => (c :: l) :: ls

/-- Go `strings.Split(s, sep)` for a one-character separator (the only call
in `mergePR` splits on a line feed). -/
def Split (s : String) (sep : Char) : List String :=
  (splitL sep s.data).map String.mk

end strings

open strings

/-! ## Data model -/

/-- What `gitExecWithOutput` returns: standard output, standard error, and
whether `err != nil`. -/
structure GitResult where
  stdout : String
  stderr : String
  failed : Bool
  deriving DecidableEq, Repr

/-- The fields of `github.PullRequest` that `mergePR` reads. -/
structure PullRequest where
  title : String
  htmlURL : String
  state : String
  mergeCommitSHA : String
  body : String
  deriving DecidableEq, Repr

/-- The parameters of `mergePR`. -/
structure Args where
  org : String
  repo : String
  issueNum : Int
  mergeTo : List String
  embedded : Bool
  dryRun : Bool
  onlyMissing : Bool
  deriving DecidableEq, Repr

/-- The lines `mergePR` prints, by the `fmt.Printf` call that prints them. -/
inductive Message where
  /-- The pull request header, printed when not embedded. -/
  | header (issueNum : Int) (title url state sha : String)
  /-- The pull request header, printed when embedded. -/
  | headerEmbedded (issueNum : Int) (title url : String)
  /-- Already merged to the branch, commit message check. -/
  | alreadyMergedCheck (branch : String)
  /-- Already merged to the branch (empty cherry-pick). -/
  | alreadyMerged (branch : String)
  /-- Conflict during cherry-picking, with the way to resolve it. -/
  | conflict (branch cachePath : String)
  /-- Conflict during cherry-picking, embedded form. -/
  | conflictEmbedded (sha branch : String)
  /-- Succesfully merged to the branch. -/
  | merged (branch : String)
  /-- Can be merged to the branch (dry run). -/
  | canBeMerged (branch : String)
  /-- Do not pushing changes because of the dry run. -/
  | notPushing
  deriving DecidableEq, Repr

/-- The effects of `mergePR` on the outside world, one per call. -/
inductive Event where
  /-- The call `os.Stat(path)`. -/
  | stat (path : String)
  /-- One run of `git` in directory `dir` with arguments `args`. -/
  | git (dir : String) (args : List String)
  /-- The call `gh.PullRequests.Get`. -/
  | prGet (org repo : String) (num : Int)
  /-- One `fmt.Printf` or `fmt.Println`. -/
  | print (msg : Message)
  /-- The call `gh.Issues.Get`. -/
  | issueGet (org repo : String) (num : Int)
  /-- The call `gh.Issues.ListComments`. -/
  | listComments (org repo : String) (num : Int)
  /-- The call `gh.Issues.CreateComment`. -/
  | createComment (org repo : String) (num : Int) (body : String)
  deriving DecidableEq, Repr

/-- The errors `mergePR` returns, by the `fmt.Errorf` call that builds them. -/
inductive MergeError where
  /-- Error during clonning repo. -/
  | clone
  /-- Error during getting info about pull request. -/
  | prInfo
  /-- Can not release unmerged PR. -/
  | unmerged
  /-- Checkout error for the branch. -/
  | checkout (branch stderr : String)
  /-- Unknown commit SHA. -/
  | unknownSHA (sha stdout stderr : String)
  /-- The diagnostic of a cherry-pick that is neither empty nor a conflict. -/
  | cherryPick (stderr stdout : String)
  /-- Can not push changes to origin. -/
  | push (stderr stdout : String)
  /-- Can not find merge destination for the repo. -/
  | noDestination (repo : String)
  deriving DecidableEq, Repr

/-- The collaborators of `mergePR`.  Every answer is a function of the history
of effects issued before the call, so an environment may be stateful. -/
structure Env where
  /-- Whether `os.Stat(path)` reports something other than "does not exist". -/
  pathExists : List Event → String → Bool
  /-- The result of running `git` in `dir` with `args`. -/
  git : List Event → String → List String → GitResult
  /-- The answer of `gh.PullRequests.Get`; `none` when it returns an error. -/
  getPR : List Event → String → String → Int → Option PullRequest
  /-- Whether `gh.Issues.Get` succeeds. -/
  issueOk : List Event → String → String → Int → Bool
  /-- The comment bodies `gh.Issues.ListComments` returns. -/
  comments : List Event → String → String → Int → List String
  /-- The matches of `prURLRe.FindAllStringSubmatch(body, -1)`, each reduced to
  the pair of its repository group and of `strconv.Atoi` of its number group. -/
  prURLRe : String → List (String × Int)

/-! ## `gitCloneRepo`

Every function below takes the history `tr` of the effects issued before it
starts (the environment answers from it) and returns the effects it issues
itself, in order, with the error it returns, if any. -/

/-- The two deferred calls of `gitCloneRepo`, in the order they run. -/
def gitCloneDeferred (cachePath : String) : List Event :=
  [Event.git cachePath ["fetch", "origin"], Event.git cachePath ["reset", "--hard"]]

/-- Embedding of `gitCloneRepo`: its effects, and whether it returns an error. -/
def gitCloneRepo (env : Env) (url cachePath : String) (tr : List Event) : List Event × Bool :=
  if env.pathExists tr cachePath then
    (Event.stat cachePath :: gitCloneDeferred cachePath, false)
  else
    (Event.stat cachePath :: Event.git "" ["clone", url, cachePath] :: gitCloneDeferred cachePath,
      (env.git (tr ++ [Event.stat cachePath]) "" ["clone", url, cachePath]).failed)

/-! ## The branch loop of `mergePR` -/

/-- The head of both loops over `mergeTo`: `none` when the loop continues
with the next spec, the branch name otherwise. -/
def resolveSpec (repo spec : String) : Option String :=
  if Contains spec ":" then
    if !HasPrefix spec (repo ++ ":") then none
    else some (TrimPrefix spec (repo ++ ":"))
  else some spec

/-- The loop over the lines of the commit body that extends `logCommand`. -/
def grepLoop : List String → List String → List String
  | [], logCommand => logCommand
  | line :: rest, logCommand =>
    if TrimSpace line = "" then grepLoop rest logCommand
    else grepLoop rest ((logCommand ++ ["--grep"]) ++ [TrimSpace line])

/-- The argument list of the history search. -/
def logCommand (branch authorEmail commitBody : String) : List String :=
  grepLoop (Split commitBody '\n') ["log", branch, "--all-match", "--author", authorEmail]

/-- The check of the push result: the error returned, if any. -/
def pushVerdict (r : GitResult) : Option MergeError :=
  if r.stderr ≠ "" then
    if Contains r.stdout "Everything up-to-date" then some (MergeError.push r.stderr r.stdout)
    else none
  else none

/-- The push block that ends the cherry-pick path. -/
def pushStep (env : Env) (a : Args) (cachePath branch : String) (tr : List Event) :
    List Event × Option MergeError :=
  if !a.dryRun then
    ([Event.git cachePath ["push", "origin", branch]],
      pushVerdict (env.git tr cachePath ["push", "origin", branch]))
  else if !a.embedded then ([Event.print Message.notPushing], none)
  else ([], none)

/-- The chain of tests on the diagnostic of the cherry-pick: what is printed,
and the error returned, if any. -/
def cherryPickReport (a : Args) (pr : PullRequest) (cachePath branch : String) (r : GitResult) :
    List Event × Option MergeError :=
  if Contains r.stderr "allow-empty" then
    (if !a.onlyMissing then [Event.print (Message.alreadyMerged branch)] else [], none)
  else if Contains r.stderr "error: could not apply" then
    (if !a.embedded then [Event.print (Message.conflict branch cachePath)]
      else [Event.print (Message.conflictEmbedded pr.mergeCommitSHA branch)], none)
  else if r.stderr ≠ "" then ([], some (MergeError.cherryPick r.stderr r.stdout))
  else
    (if !a.dryRun then [Event.print (Message.merged branch)]
      else [Event.print (Message.canBeMerged branch)], none)

/-- The arguments of the cherry-pick of the merge commit. -/
def cherryPickArgs (pr : PullRequest) : List String :=
  ["cherry-pick", "-x", pr.mergeCommitSHA]

/-- The path taken when the history search finds nothing: cherry-pick, report,
push. -/
def cherryPickStep (env : Env) (a : Args) (pr : PullRequest) (cachePath branch : String)
    (tr : List Event) : List Event × Option MergeError :=
  let rep := cherryPickReport a pr cachePath branch (env.git tr cachePath (cherryPickArgs pr))
  let done := Event.git cachePath (cherryPickArgs pr) :: rep.1
  match rep.2 with
  | some e => (done, some e)
  | none =>
    let p := pushStep env a cachePath branch (tr ++ done)
    (done ++ p.1, p.2)

/-- The test on the result `sr` of the history search, and what follows. -/
def afterSearch (env : Env) (a : Args) (pr : PullRequest) (cachePath branch : String)
    (sr : GitResult) (tr : List Event) : List Event × Option MergeError :=
  if TrimSpace sr.stdout ≠ "" ∧ sr.failed = false then
    (if !a.onlyMissing then [Event.print (Message.alreadyMergedCheck branch)] else [], none)
  else cherryPickStep env a pr cachePath branch tr

/-- The arguments of the query for the author of the merge commit. -/
def emailArgs (pr : PullRequest) : List String :=
  ["log", "-1", pr.mergeCommitSHA, "--pretty=format:%aE"]

/-- The arguments of the query for the message of the merge commit. -/
def bodyArgs (pr : PullRequest) : List String :=
  ["log", "-1", pr.mergeCommitSHA, "--pretty=format:%B"]

/-- The search of the merge commit in the history of the checked out branch,
from the commit body `commitBody`. -/
def searchStep (env : Env) (a : Args) (pr : PullRequest) (cachePath branch commitBody : String)
    (tr : List Event) : List Event × Option MergeError :=
  let authorEmail := (env.git tr cachePath (emailArgs pr)).stdout
  let cmd := logCommand branch authorEmail commitBody
  let done := [Event.git cachePath (emailArgs pr), Event.git cachePath cmd]
  let r := afterSearch env a pr cachePath branch
    (env.git (tr ++ [Event.git cachePath (emailArgs pr)]) cachePath cmd) (tr ++ done)
  (done ++ r.1, r.2)

/-- The three git calls that open the body of the branch loop. -/
def checkoutEvents (cachePath branch : String) : List Event :=
  [Event.git cachePath ["reset", "--hard"], Event.git cachePath ["branch", "-D", branch],
    Event.git cachePath ["checkout", branch]]

/-- The body of the branch loop for one resolved branch. -/
def branchBody (env : Env) (a : Args) (pr : PullRequest) (cachePath branch : String)
    (tr : List Event) : List Event × Option MergeError :=
  let co := env.git
    (tr ++ [Event.git cachePath ["reset", "--hard"], Event.git cachePath ["branch", "-D", branch]])
    cachePath ["checkout", branch]
  if co.failed then (checkoutEvents cachePath branch, some (MergeError.checkout branch co.stderr))
  else
    let lb := env.git (tr ++ checkoutEvents cachePath branch) cachePath (bodyArgs pr)
    let done := checkoutEvents cachePath branch ++ [Event.git cachePath (bodyArgs pr)]
    if lb.failed then (done, some (MergeError.unknownSHA pr.mergeCommitSHA lb.stdout lb.stderr))
    else
      let r := searchStep env a pr cachePath branch lb.stdout (tr ++ done)
      (done ++ r.1, r.2)

/-- The loop `for _, branch := range mergeTo` that processes the branches;
`mergeToFound` is the variable of that name: it is set to `true` right before
the body, so the test on it that closes the body reads `true`. -/
def branchLoop (env : Env) (a : Args) (pr : PullRequest) (cachePath : String) :
    List String → Bool → List Event → List Event × Option MergeError
  | [], _, _ => ([], none)
  | spec :: rest, mergeToFound, tr =>
    match resolveSpec a.repo spec with
    | none => branchLoop env a pr cachePath rest mergeToFound tr
    | some branch =>
      let b := branchBody env a pr cachePath branch tr
      match b.2 with
      | some e => (b.1, some e)
      | none =>
        if !true then (b.1, some (MergeError.noDestination a.repo))
        else
          let r := branchLoop env a pr cachePath rest true (tr ++ b.1)
          (b.1 ++ r.1, r.2)

/-! ## The issue notifier of `mergePR` -/

/-- The text of the status comment for one branch. -/
def commentBody (url branch : String) : String :=
  url ++ " was merged to `" ++ branch
    ++ "` branch\n<details><summary></summary>Created via API</details>"

/-- The loop that looks for the comment among the existing ones. -/
def commentFound (body : String) : List String → Bool
  | [] => false
  | c :: cs => if Contains c body then true else commentFound body cs

/-- The loop over `mergeTo` that comments one issue, from the comments
fetched before it starts. -/
def commentLoop (a : Args) (pr : PullRequest) (issueRepo : String) (num : Int)
    (comments : List String) : List String → List Event
  | [] => []
  | spec :: rest =>
    match resolveSpec a.repo spec with
    | none => commentLoop a pr issueRepo num comments rest
    | some branch =>
      if commentFound (commentBody pr.htmlURL branch) comments then
        commentLoop a pr issueRepo num comments rest
      else
        Event.createComment a.org issueRepo num (commentBody pr.htmlURL branch)
          :: commentLoop a pr issueRepo num comments rest

/-- The body of the loop over linked issues, for an issue that is accessible. -/
def notifyIssue (env : Env) (a : Args) (pr : PullRequest) (issueRepo : String) (num : Int)
    (tr : List Event) : List Event :=
  Event.issueGet a.org issueRepo num :: Event.listComments a.org issueRepo num ::
    commentLoop a pr issueRepo num
      (env.comments (tr ++ [Event.issueGet a.org issueRepo num]) a.org issueRepo num) a.mergeTo

/-- The loop over the issues the pull request body links to. -/
def notifyLoop (env : Env) (a : Args) (pr : PullRequest) :
    List (String × Int) → List Event → List Event
  | [], _ => []
  | (issueRepo, num) :: rest, tr =>
    if a.dryRun then []
    else if !env.issueOk tr a.org issueRepo num then
      Event.issueGet a.org issueRepo num ::
        notifyLoop env a pr rest (tr ++ [Event.issueGet a.org issueRepo num])
    else
      notifyIssue env a pr issueRepo num tr ++
        notifyLoop env a pr rest (tr ++ notifyIssue env a pr issueRepo num tr)

/-! ## `mergePR` -/

/-- The header printed once the pull request is known. -/
def headerMessage (a : Args) (pr : PullRequest) : Message :=
  if !a.embedded then Message.header a.issueNum pr.title pr.htmlURL pr.state pr.mergeCommitSHA
  else Message.headerEmbedded a.issueNum pr.title pr.htmlURL

/-- The part of `mergePR` that follows the retrieval of the pull request. -/
def mergeKnownPR (env : Env) (a : Args) (pr : PullRequest) (cachePath : String)
    (tr : List Event) : List Event × Option MergeError :=
  if pr.state ≠ "closed" then ([], some MergeError.unmerged)
  else
    let l := branchLoop env a pr cachePath a.mergeTo false tr
    match l.2 with
    | some e => (l.1, some e)
    | none => (l.1 ++ notifyLoop env a pr (env.prURLRe pr.body) (tr ++ l.1), none)

/-- The directory of the local copy of the repository. -/
def cachePathOf (a : Args) : String := "/tmp/git_cache/" ++ a.org ++ "/" ++ a.repo

/-- The address the repository is cloned from. -/
def urlOf (a : Args) : String := "https://github.com/" ++ a.org ++ "/" ++ a.repo

/-- Embedding of `mergePR`, run after the history `tr0`: the effects of the
run, and the error it returns, if any. -/
def mergePR (env : Env) (a : Args) (tr0 : List Event) : List Event × Option MergeError :=
  let cl := gitCloneRepo env (urlOf a) (cachePathOf a) tr0
  if cl.2 then (cl.1, some MergeError.clone)
  else
    match env.getPR (tr0 ++ cl.1) a.org a.repo a.issueNum with
    | none => (cl.1 ++ [Event.prGet a.org a.repo a.issueNum], some MergeError.prInfo)
    | some pr =>
      let pre := cl.1 ++ [Event.prGet a.org a.repo a.issueNum, Event.print (headerMessage a pr)]
      let r := mergeKnownPR env a pr (cachePathOf a) (tr0 ++ pre)
      (pre ++ r.1, r.2)

/-! ## Definitions used to state the properties -/

/-- The branch a git call checks out, when the call is a checkout. -/
def checkoutTarget : Event → Option String
  | Event.git _ [c, b] => if c = "checkout" then some b else none
  | _ => none

/-- The branches checked out by a sequence of effects, in order. -/
def checkedOut (evs : List Event) : List String := evs.filterMap checkoutTarget

/-- Whether an effect is a `git push`. -/
def isPush : Event → Bool
  | Event.git _ args => args.head? = some "push"
  | _ => false

/-- Whether an effect is a call of the issue notifier to the hosting API. -/
def isNotifierCall : Event → Bool
  | Event.issueGet _ _ _ => true
  | Event.listComments _ _ _ => true
  | Event.createComment _ _ _ _ => true
  | _ => false

/-- The rule of the Branch Target Resolver for one spec, in the words of the
specification: a spec without a colon is kept, a spec that starts with the
repository name and a colon is kept without that prefix, any other is dropped. -/
def specResolveOne (repo spec : String) : Option String :=
  if Contains spec ":" = false then some spec
  else if HasPrefix spec (repo ++ ":") then some ⟨spec.data.drop (repo ++ ":").data.length⟩
  else none

/-- The Branch Target Resolver of the specification: the rule applied to every
spec, in input order, without deduplication. -/
def specResolve (repo : String) (mergeTo : List String) : List String :=
  mergeTo.filterMap (specResolveOne repo)

/-- The non-blank lines of a commit body, trimmed, in the words of the
specification of the history search. -/
def specMessageLines (commitBody : String) : List String :=
  ((Split commitBody '\n').map TrimSpace).filter (fun l => l ≠ "")

/-- The effects the body of the branch loop may issue once the branch is
checked out. -/
def StepEvent (a : Args) (pr : PullRequest) (cachePath branch : String) (e : Event) : Prop :=
  (∃ m, e = Event.print m) ∨ (∃ args, e = Event.git cachePath ("log" :: args))
    ∨ e = Event.git cachePath (cherryPickArgs pr)
    ∨ (a.dryRun = false ∧ e = Event.git cachePath ["push", "origin", branch])

/-- The outcomes of the specification's data model. -/
inductive MergeOutcome where
  | AlreadyMerged
  | Conflict
  | Applied
  | AppliedDryRun
  | Fatal
  deriving DecidableEq, Repr

/-- The outcome of a cherry-pick in the words of the specification: already
merged when the diagnostic mentions the allow-empty option, else a conflict
when it says the commit could not be applied, else fatal when it is not empty,
else applied. -/
def specCherryPickOutcome (stderr : String) : MergeOutcome :=
  if Contains stderr "allow-empty" then MergeOutcome.AlreadyMerged
  else if Contains stderr "error: could not apply" then MergeOutcome.Conflict
  else if stderr ≠ "" then MergeOutcome.Fatal
  else MergeOutcome.Applied

/-- Whether the history search found the merge commit (the commit message
check classifies the branch as already merged). -/
def searchFound (sr : GitResult) : Bool :=
  decide (TrimSpace sr.stdout ≠ "") && !sr.failed

/-- A commit body without a non-blank line. -/
def BlankBody (commitBody : String) : Prop :=
  ∀ line ∈ Split commitBody '\n', TrimSpace line = ""

instance decidableBlankBody (commitBody : String) : Decidable (BlankBody commitBody) := by
  unfold BlankBody
  infer_instance

/-- The push of a branch, as an effect. -/
def pushEvent (cachePath branch : String) : Event :=
  Event.git cachePath ["push", "origin", branch]

/-- Whether a conflict on `branch` is reported among the effects. -/
def conflictReported (branch : String) (evs : List Event) : Prop :=
  ∃ x, Event.print (Message.conflict branch x) ∈ evs
    ∨ Event.print (Message.conflictEmbedded x branch) ∈ evs

/-- The bodies of the comments that a history of effects created on one issue. -/
def createdComments (org repo : String) (num : Int) (tr : List Event) : List String :=
  tr.filterMap fun e =>
    match e with
    | Event.createComment o r n b => if o = org ∧ r = repo ∧ n = num then some b else none
    | _ => none

/-- The number of comments of a list that contain `text`. -/
def countContaining (text : String) (comments : List String) : Nat :=
  comments.countP (fun c => Contains c text)

/-- A result whose error, when it is the error of a cherry-pick, comes from a
cherry-pick with a fatal diagnostic that is the last effect issued. -/
def EndsAtFatalCherryPick (env : Env) (tr : List Event)
    (res : List Event × Option MergeError) : Prop :=
  ∀ se so, res.2 = some (MergeError.cherryPick se so) →
    ∃ pre dir sha, res.1 = pre ++ [Event.git dir ["cherry-pick", "-x", sha]]
      ∧ specCherryPickOutcome (env.git (tr ++ pre) dir ["cherry-pick", "-x", sha]).stderr
          = MergeOutcome.Fatal
      ∧ se = (env.git (tr ++ pre) dir ["cherry-pick", "-x", sha]).stderr

/-- The author email the history search uses, read from git at history `tr`. -/
def authorEmailAt (env : Env) (pr : PullRequest) (cachePath : String) (tr : List Event) : String :=
  (env.git tr cachePath (emailArgs pr)).stdout

/-- The answer of git to the history search that `searchStep` runs when it
starts at history `tr`. -/
def searchResultAt (env : Env) (pr : PullRequest) (cachePath branch commitBody : String)
    (tr : List Event) : GitResult :=
  env.git (tr ++ [Event.git cachePath (emailArgs pr)]) cachePath
    (logCommand branch (authorEmailAt env pr cachePath tr) commitBody)

/-- The effects of a run of `mergePR` on the pull request `pr` up to the end
of the branch loop. -/
def eventsBeforeNotifier (env : Env) (a : Args) (pr : PullRequest) (tr0 : List Event) :
    List Event :=
  ((gitCloneRepo env (urlOf a) (cachePathOf a) tr0).1
      ++ [Event.prGet a.org a.repo a.issueNum, Event.print (headerMessage a pr)])
    ++ (branchLoop env a pr (cachePathOf a) a.mergeTo false
          (tr0 ++ ((gitCloneRepo env (urlOf a) (cachePathOf a) tr0).1
            ++ [Event.prGet a.org a.repo a.issueNum, Event.print (headerMessage a pr)]))).1

/-- A result in which a cherry-pick with a fatal diagnostic is the last effect
and its error is the error returned. -/
def FatalCherryPickAborts (env : Env) (tr : List Event)
    (res : List Event × Option MergeError) : Prop :=
  ∀ pre post dir sha, res.1 = pre ++ Event.git dir ["cherry-pick", "-x", sha] :: post →
    specCherryPickOutcome (env.git (tr ++ pre) dir ["cherry-pick", "-x", sha]).stderr
      = MergeOutcome.Fatal →
    post = [] ∧ res.2 = some (MergeError.cherryPick
      (env.git (tr ++ pre) dir ["cherry-pick", "-x", sha]).stderr
      (env.git (tr ++ pre) dir ["cherry-pick", "-x", sha]).stdout)

/-- Whether an effect is a cherry-pick. -/
def isCherryPick : Event → Bool
  | Event.git _ args => args.head? = some "cherry-pick"
  | _ => false

/-- The answer of git to the checkout that opens the pass of the branch loop
on `branch`, when the pass starts at history `tr`. -/
def checkoutResultAt (env : Env) (cachePath branch : String) (tr : List Event) : GitResult :=
  env.git
    (tr ++ [Event.git cachePath ["reset", "--hard"], Event.git cachePath ["branch", "-D", branch]])
    cachePath ["checkout", branch]

/-- The answer of git to the query for the message of the merge commit in the
pass on `branch` that starts at history `tr`. -/
def commitBodyAt (env : Env) (pr : PullRequest) (cachePath branch : String)
    (tr : List Event) : GitResult :=
  env.git (tr ++ checkoutEvents cachePath branch) cachePath (bodyArgs pr)

/-- The history at which the pass on `branch` that starts at `tr` begins the
history search. -/
def searchHistory (pr : PullRequest) (cachePath branch : String) (tr : List Event) :
    List Event :=
  tr ++ (checkoutEvents cachePath branch ++ [Event.git cachePath (bodyArgs pr)])

/-- The answer of git to the history search of the pass on `branch` that
starts at history `tr`. -/
def passSearchAt (env : Env) (pr : PullRequest) (cachePath branch : String)
    (tr : List Event) : GitResult :=
  searchResultAt env pr cachePath branch (commitBodyAt env pr cachePath branch tr).stdout
    (searchHistory pr cachePath branch tr)

/-- The answer of git to the cherry-pick of the pass on `branch` that starts
at history `tr`, when the pass gets that far. -/
def passCherryPickAt (env : Env) (pr : PullRequest) (cachePath branch : String)
    (tr : List Event) : GitResult :=
  env.git
    (searchHistory pr cachePath branch tr
      ++ [Event.git cachePath (emailArgs pr),
          Event.git cachePath
            (logCommand branch (authorEmailAt env pr cachePath (searchHistory pr cachePath branch tr))
              (commitBodyAt env pr cachePath branch tr).stdout)])
    cachePath (cherryPickArgs pr)

/-- The effects of `mergePR` on the pull request `pr` before the branch loop
starts. -/
def eventsBeforeLoop (env : Env) (a : Args) (pr : PullRequest) (tr0 : List Event) :
    List Event :=
  (gitCloneRepo env (urlOf a) (cachePathOf a) tr0).1
    ++ [Event.prGet a.org a.repo a.issueNum, Event.print (headerMessage a pr)]

/-- The history at which the branch loop of a run of `mergePR` on the pull
request `pr` starts. -/
def loopStart (env : Env) (a : Args) (pr : PullRequest) (tr0 : List Event) : List Event :=
  tr0 ++ eventsBeforeLoop env a pr tr0

/-- The history of a run of `mergePR` once the branch loop has gone through
the specs `front`. -/
def historyAfter (env : Env) (a : Args) (pr : PullRequest) (tr0 : List Event)
    (front : List String) : List Event :=
  loopStart env a pr tr0
    ++ (branchLoop env a pr (cachePathOf a) front false (loopStart env a pr tr0)).1

/-! ## A concrete environment, used to run the program on examples -/

/-- A successful git call without output. -/
def gitOk : GitResult := { stdout := "", stderr := "", failed := false }

/-- The diagnostic of a cherry-pick that stops on a conflict. -/
def gitConflict : GitResult :=
  { stdout := "", stderr := "error: could not apply abc123... Fix bugs", failed := true }

/-- The diagnostic of a push with nothing to push. -/
def gitUpToDate : GitResult := { stdout := "", stderr := "Everything up-to-date", failed := false }

/-- A git that answers by the command it is given: the message and the author
of the merge commit, the result `search` of the history search, `cherryPick`
for a cherry-pick and `push` for a push. -/
def demoGit (commitBody : String) (search cherryPick push : GitResult) (args : List String) :
    GitResult :=
  match args with
  | [] => gitOk
  | cmd :: rest =>
    if cmd = "cherry-pick" then cherryPick
    else if cmd = "push" then push
    else if cmd = "log" then
      if rest.head? = some "-1" then
        if rest.getLast? = some "--pretty=format:%B" then
          { stdout := commitBody, stderr := "", failed := false }
        else { stdout := "dev@example.com", stderr := "", failed := false }
      else search
    else gitOk

/-- A closed pull request of repository `serviceA` that links to issue 10. -/
def demoPR : PullRequest :=
  { title := "Fix bugs"
    htmlURL := "https://github.com/Org/serviceA/pull/5"
    state := "closed"
    mergeCommitSHA := "abc123"
    body := "Fixes https://github.com/Org/serviceA/issues/10" }

/-- An environment whose repository is cloned already, whose pull request is
`demoPR`, whose issues are all accessible and keep every comment created on
them, and whose git answers as `demoGit`; the cherry-pick on the branch
`conflictOn` stops on a conflict, any other applies cleanly. -/
def demoEnv (commitBody : String) (search push : GitResult) (conflictOn : String) : Env :=
  { pathExists := fun _ _ => true
    git := fun tr _ args =>
      demoGit commitBody search
        (if (checkedOut tr).getLast? = some conflictOn then gitConflict else gitOk) push args
    getPR := fun _ _ _ _ => some demoPR
    issueOk := fun _ _ _ _ => true
    comments := fun tr org repo num => createdComments org repo num tr
    prURLRe := fun _ => [("serviceA", 10)] }

/-- A run on two release branches of `serviceA`. -/
def demoArgs (dryRun : Bool) : Args :=
  { org := "Org"
    repo := "serviceA"
    issueNum := 5
    mergeTo := ["release-1.0", "release-2.0"]
    embedded := false
    dryRun := dryRun
    onlyMissing := false }

/-! ## Lemmas on strings and on the search query -/

theorem hasPrefixL_self (s : List Char) : hasPrefixL s s = true := by
  induction s with
  | nil => rfl
  | cons c s ih => simp [hasPrefixL, ih]

theorem containsL_self (s : List Char) : containsL s s = true := by
  cases s with
  | nil => rfl
  | cons c s => simp [containsL, hasPrefixL_self]

theorem contains_self (s : String) : Contains s s = true := containsL_self s.data

theorem grepLoop_eq (lines acc : List String) :
    grepLoop lines acc
      = acc ++ ((lines.map TrimSpace).filter (fun l => l ≠ "")).flatMap (fun l => ["--grep", l]) := by
  induction lines generalizing acc with
  | nil => simp [grepLoop]
  | cons line rest ih =>
    by_cases h : TrimSpace line = ""
    · simp [grepLoop, h, ih]
    · simp [grepLoop, h, ih]

theorem logCommand_eq (branch authorEmail commitBody : String) :
    logCommand branch authorEmail commitBody
      = "log" :: branch :: "--all-match" :: "--author" :: authorEmail ::
          (specMessageLines commitBody).flatMap (fun l => ["--grep", l]) := by
  simp [logCommand, grepLoop_eq, specMessageLines]

theorem resolveSpec_eq (repo spec : String) : resolveSpec repo spec = specResolveOne repo spec := by
  unfold resolveSpec specResolveOne TrimPrefix
  by_cases h : Contains spec ":" = true
  · by_cases h2 : HasPrefix spec (repo ++ ":") = true
    · simp [h, h2]
    · simp [h, h2]
  · simp [h]

/-! ## Unfolding of the loops -/

theorem branchLoop_skip (env : Env) (a : Args) (pr : PullRequest) (cachePath spec : String)
    (rest : List String) (found : Bool) (tr : List Event)
    (h : resolveSpec a.repo spec = none) :
    branchLoop env a pr cachePath (spec :: rest) found tr
      = branchLoop env a pr cachePath rest found tr := by
  rw [branchLoop]; simp only [h]

theorem branchLoop_abort (env : Env) (a : Args) (pr : PullRequest)
    (cachePath spec branch : String) (rest : List String) (found : Bool) (tr : List Event)
    (e : MergeError) (h : resolveSpec a.repo spec = some branch)
    (he : (branchBody env a pr cachePath branch tr).2 = some e) :
    branchLoop env a pr cachePath (spec :: rest) found tr
      = ((branchBody env a pr cachePath branch tr).1, some e) := by
  rw [branchLoop]; simp only [h, he]

theorem branchLoop_next (env : Env) (a : Args) (pr : PullRequest)
    (cachePath spec branch : String) (rest : List String) (found : Bool) (tr : List Event)
    (h : resolveSpec a.repo spec = some branch)
    (he : (branchBody env a pr cachePath branch tr).2 = none) :
    branchLoop env a pr cachePath (spec :: rest) found tr
      = ((branchBody env a pr cachePath branch tr).1
          ++ (branchLoop env a pr cachePath rest true
                (tr ++ (branchBody env a pr cachePath branch tr).1)).1,
        (branchLoop env a pr cachePath rest true
          (tr ++ (branchBody env a pr cachePath branch tr).1)).2) := by
  rw [branchLoop]; simp only [h, he, Bool.not_true, Bool.false_eq_true, if_false]

theorem mergeKnownPR_open (env : Env) (a : Args) (pr : PullRequest) (cachePath : String)
    (tr : List Event) (h : pr.state ≠ "closed") :
    mergeKnownPR env a pr cachePath tr = ([], some MergeError.unmerged) := by
  unfold mergeKnownPR; simp only [h, ne_eq, not_false_eq_true, if_true]

theorem mergeKnownPR_abort (env : Env) (a : Args) (pr : PullRequest) (cachePath : String)
    (tr : List Event) (e : MergeError) (h : pr.state = "closed")
    (he : (branchLoop env a pr cachePath a.mergeTo false tr).2 = some e) :
    mergeKnownPR env a pr cachePath tr
      = ((branchLoop env a pr cachePath a.mergeTo false tr).1, some e) := by
  unfold mergeKnownPR; simp only [h, he, ne_eq, not_true_eq_false, if_false]

theorem mergeKnownPR_notify (env : Env) (a : Args) (pr : PullRequest) (cachePath : String)
    (tr : List Event) (h : pr.state = "closed")
    (he : (branchLoop env a pr cachePath a.mergeTo false tr).2 = none) :
    mergeKnownPR env a pr cachePath tr
      = ((branchLoop env a pr cachePath a.mergeTo false tr).1
          ++ notifyLoop env a pr (env.prURLRe pr.body)
              (tr ++ (branchLoop env a pr cachePath a.mergeTo false tr).1), none) := by
  unfold mergeKnownPR; simp only [h, he, ne_eq, not_true_eq_false, if_false]

/-! ## The effects of one pass of the branch loop -/

theorem stepEvent_not_checkout (a : Args) (pr : PullRequest) (cachePath branch : String)
    (e : Event) (h : StepEvent a pr cachePath branch e) : checkoutTarget e = none := by
  rcases h with ⟨m, rfl⟩ | ⟨args, rfl⟩ | rfl | ⟨_, rfl⟩
  · rfl
  · match args with
    | [] => rfl
    | [b] => simp [checkoutTarget]
    | _ :: _ :: _ => rfl
  · rfl
  · rfl

theorem pushStep_events (env : Env) (a : Args) (pr : PullRequest) (cachePath branch : String)
    (tr : List Event) :
    ∀ e ∈ (pushStep env a cachePath branch tr).1, StepEvent a pr cachePath branch e := by
  intro e he
  unfold pushStep at he
  by_cases hd : a.dryRun = true
  · by_cases hm : a.embedded = true
    · simp [hd, hm] at he
    · simp [hd, hm] at he
      exact Or.inl ⟨_, he⟩
  · simp [hd] at he
    exact Or.inr (Or.inr (Or.inr ⟨by simpa using hd, he⟩))

theorem cherryPickReport_events (a : Args) (pr : PullRequest) (cachePath branch : String)
    (r : GitResult) :
    ∀ e ∈ (cherryPickReport a pr cachePath branch r).1, ∃ m, e = Event.print m := by
  intro e he
  unfold cherryPickReport at he
  split_ifs at he <;> simp at he <;> exact ⟨_, he⟩

theorem cherryPickStep_events (env : Env) (a : Args) (pr : PullRequest)
    (cachePath branch : String) (tr : List Event) :
    ∀ e ∈ (cherryPickStep env a pr cachePath branch tr).1, StepEvent a pr cachePath branch e := by
  intro e he
  unfold cherryPickStep at he
  simp only at he
  split at he
  · simp only [List.mem_cons] at he
    rcases he with rfl | he
    · exact Or.inr (Or.inr (Or.inl rfl))
    · exact Or.inl (cherryPickReport_events _ _ _ _ _ e he)
  · simp only [List.mem_cons, List.mem_append, List.cons_append] at he
    rcases he with rfl | he | he
    · exact Or.inr (Or.inr (Or.inl rfl))
    · exact Or.inl (cherryPickReport_events _ _ _ _ _ e he)
    · exact pushStep_events env a pr cachePath branch _ e he

theorem afterSearch_events (env : Env) (a : Args) (pr : PullRequest)
    (cachePath branch : String) (sr : GitResult) (tr : List Event) :
    ∀ e ∈ (afterSearch env a pr cachePath branch sr tr).1, StepEvent a pr cachePath branch e := by
  intro e he
  unfold afterSearch at he
  split_ifs at he
  · simp at he
    exact Or.inl ⟨_, he⟩
  · simp at he
  · exact cherryPickStep_events env a pr cachePath branch tr e he

theorem searchStep_events (env : Env) (a : Args) (pr : PullRequest)
    (cachePath branch commitBody : String) (tr : List Event) :
    ∀ e ∈ (searchStep env a pr cachePath branch commitBody tr).1,
      StepEvent a pr cachePath branch e := by
  intro e he
  unfold searchStep at he
  simp only [List.mem_cons, List.mem_append, List.cons_append, List.nil_append] at he
  rcases he with rfl | rfl | he
  · exact Or.inr (Or.inl ⟨_, rfl⟩)
  · rw [logCommand_eq]
    exact Or.inr (Or.inl ⟨_, rfl⟩)
  · exact afterSearch_events env a pr cachePath branch _ _ e he

theorem branchBody_events (env : Env) (a : Args) (pr : PullRequest)
    (cachePath branch : String) (tr : List Event) :
    ∃ rest, (branchBody env a pr cachePath branch tr).1 = checkoutEvents cachePath branch ++ rest
      ∧ ∀ e ∈ rest, StepEvent a pr cachePath branch e := by
  unfold branchBody
  simp only
  split_ifs
  · exact ⟨[], by simp, by simp⟩
  · refine ⟨[Event.git cachePath (bodyArgs pr)], rfl, ?_⟩
    intro e he
    simp only [List.mem_singleton] at he
    subst he
    exact Or.inr (Or.inl ⟨_, rfl⟩)
  · refine ⟨_, List.append_assoc _ _ _, ?_⟩
    intro e he
    simp only [List.mem_append, List.mem_singleton] at he
    rcases he with rfl | he
    · exact Or.inr (Or.inl ⟨_, rfl⟩)
    · exact searchStep_events env a pr cachePath branch _ _ e he

theorem branchBody_checkedOut (env : Env) (a : Args) (pr : PullRequest)
    (cachePath branch : String) (tr : List Event) :
    checkedOut (branchBody env a pr cachePath branch tr).1 = [branch] := by
  obtain ⟨rest, h, hrest⟩ := branchBody_events env a pr cachePath branch tr
  have h0 : rest.filterMap checkoutTarget = [] :=
    List.filterMap_eq_nil_iff.mpr
      (fun e he => stepEvent_not_checkout a pr cachePath branch e (hrest e he))
  rw [h]
  simp [checkedOut, checkoutEvents, checkoutTarget, h0]

theorem branchLoop_checkedOut (env : Env) (a : Args) (pr : PullRequest) (cachePath : String)
    (specs : List String) :
    ∀ (found : Bool) (tr : List Event),
      checkedOut (branchLoop env a pr cachePath specs found tr).1 <+: specResolve a.repo specs
      ∧ ((branchLoop env a pr cachePath specs found tr).2 = none →
          checkedOut (branchLoop env a pr cachePath specs found tr).1
            = specResolve a.repo specs) := by
  induction specs with
  | nil => intro found tr; simp [branchLoop, checkedOut, specResolve]
  | cons spec rest ih =>
    intro found tr
    unfold branchLoop
    cases hr : resolveSpec a.repo spec with
    | none =>
      have hr2 : specResolveOne a.repo spec = none := by rw [← resolveSpec_eq]; exact hr
      have hs : specResolve a.repo (spec :: rest) = specResolve a.repo rest := by
        simp [specResolve, List.filterMap_cons, hr2]
      simp only [hs]
      exact ih found tr
    | some branch =>
      have hr2 : specResolveOne a.repo spec = some branch := by rw [← resolveSpec_eq]; exact hr
      have hs : specResolve a.repo (spec :: rest) = branch :: specResolve a.repo rest := by
        simp [specResolve, List.filterMap_cons, hr2]
      have hb := branchBody_checkedOut env a pr cachePath branch tr
      simp only [hs]
      cases he : (branchBody env a pr cachePath branch tr).2 with
      | some e =>
        simp only [hb]
        exact ⟨by simp, by simp⟩
      | none =>
        have ih2 := ih true (tr ++ (branchBody env a pr cachePath branch tr).1)
        simp only [Bool.not_true, Bool.false_eq_true, if_false]
        constructor
        · have : checkedOut ((branchBody env a pr cachePath branch tr).1 ++
              (branchLoop env a pr cachePath rest true
                (tr ++ (branchBody env a pr cachePath branch tr).1)).1)
              = branch :: checkedOut (branchLoop env a pr cachePath rest true
                (tr ++ (branchBody env a pr cachePath branch tr).1)).1 := by
            unfold checkedOut at hb ⊢
            rw [List.filterMap_append, hb]
            rfl
          rw [this]
          exact (List.prefix_cons_inj branch).mpr ih2.1
        · intro hn
          unfold checkedOut at hb ih2 ⊢
          rw [List.filterMap_append, hb, ih2.2 hn]
          rfl

/-! ## The search query and the branch target resolver -/

theorem flatMap_grep_length (ls : List String) :
    (ls.flatMap (fun l => ["--grep", l])).length = 2 * ls.length := by
  induction ls with
  | nil => rfl
  | cons l ls ih => simp [List.flatMap_cons, ih]; omega

/-- C10: the argument list of the history search is `log`, the branch,
`--all-match`, `--author`, the author email, followed by one pair `--grep`,
trimmed line for each non-blank line of the commit body, in order; it has no
other predicate, none of them is empty, and a body of two lines yields two
`--grep` predicates. -/
theorem logCommand_conjunctive_query (branch authorEmail commitBody : String) :
    logCommand branch authorEmail commitBody
        = ["log", branch, "--all-match", "--author", authorEmail]
            ++ (specMessageLines commitBody).flatMap (fun l => ["--grep", l])
      ∧ (logCommand branch authorEmail commitBody).length
          = 5 + 2 * (specMessageLines commitBody).length
      ∧ (∀ l ∈ specMessageLines commitBody, l ≠ "")
      ∧ logCommand "release-1.0" "dev@example.com" "Fix bug A\nFix bug B"
          = ["log", "release-1.0", "--all-match", "--author", "dev@example.com",
              "--grep", "Fix bug A", "--grep", "Fix bug B"] := by
  refine ⟨by simp [logCommand_eq], ?_, ?_, by decide⟩
  · rw [logCommand_eq]
    simp only [List.length_cons, flatMap_grep_length]
    omega
  · intro l hl
    simpa using (List.mem_filter.mp hl).2

/-- C1: the branches the branch loop checks out are, in order, the specs of
the input list resolved by the rule of the specification (kept when without a
colon, kept without the prefix when scoped to the repository, dropped
otherwise), none removed as a duplicate: always a prefix of that list, and
the whole list when the loop runs to its end; so `main` and
`serviceB:release-2` yield `main` for `serviceA`, and `main`, `release-2` for
`serviceB`. -/
theorem branchLoop_processes_resolved_targets (env : Env) (a : Args) (pr : PullRequest)
    (cachePath : String) (mergeTo : List String) (found : Bool) (tr : List Event) :
    checkedOut (branchLoop env a pr cachePath mergeTo found tr).1 <+: specResolve a.repo mergeTo
      ∧ ((branchLoop env a pr cachePath mergeTo found tr).2 = none →
          checkedOut (branchLoop env a pr cachePath mergeTo found tr).1
            = specResolve a.repo mergeTo)
      ∧ specResolve "serviceA" ["main", "serviceB:release-2"] = ["main"]
      ∧ specResolve "serviceB" ["main", "serviceB:release-2"] = ["main", "release-2"]
      ∧ specResolve "serviceB" ["main", "main"] = ["main", "main"] :=
  ⟨(branchLoop_checkedOut env a pr cachePath mergeTo found tr).1,
    (branchLoop_checkedOut env a pr cachePath mergeTo found tr).2,
    by decide, by decide, by decide⟩

/-- Witness of C1: a run of the loop to its end on the two specs of the
specification, for repository `serviceB`. -/
theorem branchLoop_processes_resolved_targets_witness :
    (branchLoop (demoEnv "Fix" gitOk gitUpToDate "none")
        { demoArgs true with repo := "serviceB", mergeTo := ["main", "serviceB:release-2"] }
        demoPR "/cache" ["main", "serviceB:release-2"] false []).2 = none
      ∧ checkedOut (branchLoop (demoEnv "Fix" gitOk gitUpToDate "none")
        { demoArgs true with repo := "serviceB", mergeTo := ["main", "serviceB:release-2"] }
        demoPR "/cache" ["main", "serviceB:release-2"] false []).1 = ["main", "release-2"] :=
  ⟨by decide,
    ((branchLoop_processes_resolved_targets _ _ _ _ _ _ _).2.1 (by decide)).trans (by decide)⟩

/-! ## The outcome of the cherry-pick -/

theorem pushVerdict_is_push (r : GitResult) (e : MergeError) (h : pushVerdict r = some e) :
    e = MergeError.push r.stderr r.stdout := by
  unfold pushVerdict at h
  split_ifs at h
  simp_all

theorem pushStep_error (env : Env) (a : Args) (cachePath branch : String) (tr : List Event)
    (e : MergeError) (h : (pushStep env a cachePath branch tr).2 = some e) :
    a.dryRun = false ∧ ∃ se so, e = MergeError.push se so := by
  unfold pushStep at h
  by_cases hd : a.dryRun = true
  · by_cases hm : a.embedded = true <;> simp [hd, hm] at h
  · simp [hd] at h
    exact ⟨by simpa using hd, _, _, pushVerdict_is_push _ _ h⟩

theorem cherryPickReport_error (a : Args) (pr : PullRequest) (cachePath branch : String)
    (r : GitResult) :
    (cherryPickReport a pr cachePath branch r).2
      = if specCherryPickOutcome r.stderr = MergeOutcome.Fatal
        then some (MergeError.cherryPick r.stderr r.stdout) else none := by
  unfold cherryPickReport specCherryPickOutcome
  split_ifs <;> simp_all

theorem cherryPickReport_fatal (a : Args) (pr : PullRequest) (cachePath branch : String)
    (r : GitResult) (h : specCherryPickOutcome r.stderr = MergeOutcome.Fatal) :
    cherryPickReport a pr cachePath branch r = ([], some (MergeError.cherryPick r.stderr r.stdout)) := by
  unfold specCherryPickOutcome at h
  unfold cherryPickReport
  split_ifs at h ⊢
  simp_all

theorem cherryPickStep_fatal (env : Env) (a : Args) (pr : PullRequest)
    (cachePath branch : String) (tr : List Event)
    (h : specCherryPickOutcome (env.git tr cachePath (cherryPickArgs pr)).stderr
      = MergeOutcome.Fatal) :
    cherryPickStep env a pr cachePath branch tr
      = ([Event.git cachePath (cherryPickArgs pr)],
          some (MergeError.cherryPick (env.git tr cachePath (cherryPickArgs pr)).stderr
            (env.git tr cachePath (cherryPickArgs pr)).stdout)) := by
  unfold cherryPickStep
  simp [cherryPickReport_fatal a pr cachePath branch _ h]

theorem endsAtFatal_append (env : Env) (tr done : List Event)
    (res : List Event × Option MergeError) (h : EndsAtFatalCherryPick env (tr ++ done) res) :
    EndsAtFatalCherryPick env tr (done ++ res.1, res.2) := by
  intro se so hse
  obtain ⟨pre, dir, sha, h1, h2, h3⟩ := h se so hse
  refine ⟨done ++ pre, dir, sha, ?_, ?_, ?_⟩
  · simp [h1]
  · rw [← List.append_assoc]; exact h2
  · rw [← List.append_assoc]; exact h3

theorem cherryPickStep_endsAtFatal (env : Env) (a : Args) (pr : PullRequest)
    (cachePath branch : String) (tr : List Event) :
    EndsAtFatalCherryPick env tr (cherryPickStep env a pr cachePath branch tr) := by
  intro se so hse
  by_cases hf : specCherryPickOutcome (env.git tr cachePath (cherryPickArgs pr)).stderr
      = MergeOutcome.Fatal
  · rw [cherryPickStep_fatal env a pr cachePath branch tr hf] at hse ⊢
    simp only [Option.some.injEq, MergeError.cherryPick.injEq] at hse
    exact ⟨[], cachePath, pr.mergeCommitSHA, rfl, by simpa [cherryPickArgs] using hf,
      by simpa [cherryPickArgs] using hse.1.symm⟩
  · exfalso
    unfold cherryPickStep at hse
    have hr := cherryPickReport_error a pr cachePath branch
      (env.git tr cachePath (cherryPickArgs pr))
    simp only [hf, if_false] at hr
    simp only [hr] at hse
    obtain ⟨_, se2, so2, h2⟩ := pushStep_error env a cachePath branch _ _ hse
    cases h2

theorem afterSearch_endsAtFatal (env : Env) (a : Args) (pr : PullRequest)
    (cachePath branch : String) (sr : GitResult) (tr : List Event) :
    EndsAtFatalCherryPick env tr (afterSearch env a pr cachePath branch sr tr) := by
  unfold afterSearch
  split_ifs
  · intro se so hse; simp at hse
  · intro se so hse; simp at hse
  · exact cherryPickStep_endsAtFatal env a pr cachePath branch tr

theorem searchStep_endsAtFatal (env : Env) (a : Args) (pr : PullRequest)
    (cachePath branch commitBody : String) (tr : List Event) :
    EndsAtFatalCherryPick env tr (searchStep env a pr cachePath branch commitBody tr) := by
  unfold searchStep
  exact endsAtFatal_append env tr _ _ (afterSearch_endsAtFatal env a pr cachePath branch _ _)

theorem branchBody_endsAtFatal (env : Env) (a : Args) (pr : PullRequest)
    (cachePath branch : String) (tr : List Event) :
    EndsAtFatalCherryPick env tr (branchBody env a pr cachePath branch tr) := by
  unfold branchBody
  simp only
  split_ifs
  · intro se so hse; simp at hse
  · intro se so hse; simp at hse
  · exact endsAtFatal_append env tr _ _ (searchStep_endsAtFatal env a pr cachePath branch _ _)

theorem branchLoop_endsAtFatal (env : Env) (a : Args) (pr : PullRequest) (cachePath : String)
    (specs : List String) :
    ∀ (found : Bool) (tr : List Event),
      EndsAtFatalCherryPick env tr (branchLoop env a pr cachePath specs found tr) := by
  induction specs with
  | nil => intro found tr se so hse; simp [branchLoop] at hse
  | cons spec rest ih =>
    intro found tr
    cases hr : resolveSpec a.repo spec with
    | none => rw [branchLoop_skip env a pr cachePath spec rest found tr hr]; exact ih found tr
    | some branch =>
      cases he : (branchBody env a pr cachePath branch tr).2 with
      | some e =>
        rw [branchLoop_abort env a pr cachePath spec branch rest found tr e hr he]
        intro se so hse
        exact branchBody_endsAtFatal env a pr cachePath branch tr se so (he.trans hse)
      | none =>
        rw [branchLoop_next env a pr cachePath spec branch rest found tr hr he]
        exact endsAtFatal_append env tr _ _ (ih true _)

theorem mergeKnownPR_endsAtFatal (env : Env) (a : Args) (pr : PullRequest) (cachePath : String)
    (tr : List Event) :
    EndsAtFatalCherryPick env tr (mergeKnownPR env a pr cachePath tr) := by
  by_cases hs : pr.state = "closed"
  · cases he : (branchLoop env a pr cachePath a.mergeTo false tr).2 with
    | some e =>
      rw [mergeKnownPR_abort env a pr cachePath tr e hs he]
      intro se so hse
      exact branchLoop_endsAtFatal env a pr cachePath a.mergeTo false tr se so (he.trans hse)
    | none =>
      rw [mergeKnownPR_notify env a pr cachePath tr hs he]
      intro se so hse; simp at hse
  · rw [mergeKnownPR_open env a pr cachePath tr hs]
    intro se so hse; simp at hse

theorem mergePR_endsAtFatal (env : Env) (a : Args) (tr0 : List Event) :
    EndsAtFatalCherryPick env tr0 (mergePR env a tr0) := by
  unfold mergePR
  simp only
  split_ifs
  · intro se so hse; simp at hse
  · split
    · intro se so hse; simp at hse
    · exact endsAtFatal_append env tr0 _ _ (mergeKnownPR_endsAtFatal env a _ _ _)

/-! ## The push -/

theorem stepEvent_push (a : Args) (pr : PullRequest) (cachePath branch : String) (e : Event)
    (h : StepEvent a pr cachePath branch e) (hp : isPush e = true) :
    e = pushEvent cachePath branch ∧ a.dryRun = false := by
  rcases h with ⟨m, rfl⟩ | ⟨args, rfl⟩ | rfl | ⟨hd, rfl⟩
  · simp [isPush] at hp
  · simp [isPush] at hp
  · simp [isPush, cherryPickArgs] at hp
  · exact ⟨rfl, hd⟩

theorem cherryPickStep_push (env : Env) (a : Args) (pr : PullRequest)
    (cachePath branch : String) (tr : List Event) (e : Event) :
    (e ∈ (cherryPickStep env a pr cachePath branch tr).1 ∧ isPush e = true)
      ↔ (e = pushEvent cachePath branch ∧ a.dryRun = false
          ∧ specCherryPickOutcome (env.git tr cachePath (cherryPickArgs pr)).stderr
              ≠ MergeOutcome.Fatal) := by
  by_cases hf : specCherryPickOutcome (env.git tr cachePath (cherryPickArgs pr)).stderr
      = MergeOutcome.Fatal
  · rw [cherryPickStep_fatal env a pr cachePath branch tr hf]
    constructor
    · rintro ⟨he, hp⟩
      simp only [List.mem_singleton] at he
      subst he
      simp [isPush, cherryPickArgs] at hp
    · rintro ⟨_, _, h⟩
      exact absurd hf h
  · constructor
    · rintro ⟨he, hp⟩
      obtain ⟨h1, h2⟩ := stepEvent_push a pr cachePath branch e
        (cherryPickStep_events env a pr cachePath branch tr e he) hp
      exact ⟨h1, h2, hf⟩
    · rintro ⟨rfl, hd, _⟩
      have hr := cherryPickReport_error a pr cachePath branch
        (env.git tr cachePath (cherryPickArgs pr))
      simp only [hf, if_false] at hr
      refine ⟨?_, by simp [isPush, pushEvent]⟩
      unfold cherryPickStep
      simp only [hr]
      simp [pushStep, hd, pushEvent]

theorem searchFound_iff (sr : GitResult) :
    searchFound sr = true ↔ (TrimSpace sr.stdout ≠ "" ∧ sr.failed = false) := by
  simp [searchFound]

theorem afterSearch_push (env : Env) (a : Args) (pr : PullRequest)
    (cachePath branch : String) (sr : GitResult) (tr : List Event) (e : Event) :
    (e ∈ (afterSearch env a pr cachePath branch sr tr).1 ∧ isPush e = true)
      ↔ (e = pushEvent cachePath branch ∧ a.dryRun = false ∧ searchFound sr = false
          ∧ specCherryPickOutcome (env.git tr cachePath (cherryPickArgs pr)).stderr
              ≠ MergeOutcome.Fatal) := by
  by_cases hs : TrimSpace sr.stdout ≠ "" ∧ sr.failed = false
  · have hfound : searchFound sr = true := (searchFound_iff sr).mpr hs
    unfold afterSearch
    rw [if_pos hs, hfound]
    constructor
    · rintro ⟨he, hp⟩
      split_ifs at he
      · simp only [List.mem_singleton] at he
        subst he
        simp [isPush] at hp
      · simp at he
    · rintro ⟨_, _, h, _⟩
      simp at h
  · have hfound : searchFound sr = false := by
      cases h : searchFound sr
      · rfl
      · exact absurd ((searchFound_iff sr).mp h) hs
    unfold afterSearch
    rw [if_neg hs, hfound]
    simpa using cherryPickStep_push env a pr cachePath branch tr e

/-- Counterexample to C4: in a run that is not a dry run, the cherry-pick on
`release-1.0` stops on a conflict, the conflict is reported, and the branch
is pushed all the same. -/
theorem push_issued_after_conflict :
    specCherryPickOutcome gitConflict.stderr = MergeOutcome.Conflict
      ∧ Event.print (Message.conflict "release-1.0" "/tmp/git_cache/Org/serviceA")
          ∈ (mergePR (demoEnv "Fix bug A\nFix bug B" gitOk gitUpToDate "release-1.0")
              (demoArgs false) []).1
      ∧ pushEvent "/tmp/git_cache/Org/serviceA" "release-1.0"
          ∈ (mergePR (demoEnv "Fix bug A\nFix bug B" gitOk gitUpToDate "release-1.0")
              (demoArgs false) []).1 := by
  decide

/-- C7, the code at the failing input: a push that fails with a diagnostic
and prints nothing returns no error, and the run goes on to comment the issue;
the check returns its error only when the diagnostic is not empty and the
standard output contains the up-to-date phrase. -/
theorem push_failure_not_reported :
    pushVerdict { stdout := "", stderr := "fatal: unable to access the remote", failed := true }
        = none
      ∧ pushVerdict { stdout := "Everything up-to-date", stderr := "warning", failed := false }
        = some (MergeError.push "warning" "Everything up-to-date")
      ∧ (∀ r : GitResult, pushVerdict r ≠ none
          ↔ (r.stderr ≠ "" ∧ Contains r.stdout "Everything up-to-date" = true))
      ∧ (mergePR (demoEnv "Fix bug A"
            gitOk { stdout := "", stderr := "fatal: unable to access the remote", failed := true }
            "none") (demoArgs false) []).2 = none
      ∧ pushEvent "/tmp/git_cache/Org/serviceA" "release-1.0"
          ∈ (mergePR (demoEnv "Fix bug A"
            gitOk { stdout := "", stderr := "fatal: unable to access the remote", failed := true }
            "none") (demoArgs false) []).1 := by
  refine ⟨by decide, by decide, ?_, by decide, by decide⟩
  intro r
  unfold pushVerdict
  split_ifs <;> simp_all

/-! ## The commit message check on a blank commit body -/

theorem specMessageLines_blank (commitBody : String) (h : BlankBody commitBody) :
    specMessageLines commitBody = [] := by
  unfold specMessageLines
  rw [List.filter_eq_nil_iff]
  intro l hl
  obtain ⟨line, hline, rfl⟩ := List.mem_map.mp hl
  simp [h line hline]

theorem cherryPickStep_attempts (env : Env) (a : Args) (pr : PullRequest)
    (cachePath branch : String) (tr : List Event) :
    Event.git cachePath (cherryPickArgs pr) ∈ (cherryPickStep env a pr cachePath branch tr).1 := by
  unfold cherryPickStep
  simp only
  split <;> simp

theorem searchStep_found (env : Env) (a : Args) (pr : PullRequest)
    (cachePath branch commitBody : String) (tr : List Event)
    (h : searchFound (searchResultAt env pr cachePath branch commitBody tr) = true) :
    searchStep env a pr cachePath branch commitBody tr
      = ([Event.git cachePath (emailArgs pr),
          Event.git cachePath (logCommand branch (authorEmailAt env pr cachePath tr) commitBody)]
          ++ (if !a.onlyMissing then [Event.print (Message.alreadyMergedCheck branch)] else []),
        none) := by
  have h2 := (searchFound_iff _).mp h
  unfold searchResultAt authorEmailAt at h2
  unfold searchStep afterSearch authorEmailAt
  simp only
  rw [if_pos h2]

theorem searchStep_not_found (env : Env) (a : Args) (pr : PullRequest)
    (cachePath branch commitBody : String) (tr : List Event)
    (h : searchFound (searchResultAt env pr cachePath branch commitBody tr) = false) :
    searchStep env a pr cachePath branch commitBody tr
      = ([Event.git cachePath (emailArgs pr),
          Event.git cachePath (logCommand branch (authorEmailAt env pr cachePath tr) commitBody)]
          ++ (cherryPickStep env a pr cachePath branch
                (tr ++ [Event.git cachePath (emailArgs pr),
                  Event.git cachePath
                    (logCommand branch (authorEmailAt env pr cachePath tr) commitBody)])).1,
        (cherryPickStep env a pr cachePath branch
          (tr ++ [Event.git cachePath (emailArgs pr),
            Event.git cachePath
              (logCommand branch (authorEmailAt env pr cachePath tr) commitBody)])).2) := by
  have h2 : ¬ (TrimSpace (searchResultAt env pr cachePath branch commitBody tr).stdout ≠ ""
      ∧ (searchResultAt env pr cachePath branch commitBody tr).failed = false) := by
    intro hc
    rw [(searchFound_iff _).mpr hc] at h
    cases h
  unfold searchResultAt authorEmailAt at h2
  unfold searchStep afterSearch authorEmailAt
  simp only
  rw [if_neg h2]

/-- C2, as amended: for a merge commit whose body has no non-blank line the
history search carries no `--grep` predicate, only `--all-match` and the
author; the branch is classified as already merged by the commit message check
exactly when that search prints something and reports no error, and the
cherry-pick is attempted exactly when it does not. -/
theorem blank_body_search (env : Env) (a : Args) (pr : PullRequest)
    (cachePath branch commitBody : String) (tr : List Event) (h : BlankBody commitBody) :
    logCommand branch (authorEmailAt env pr cachePath tr) commitBody
        = ["log", branch, "--all-match", "--author", authorEmailAt env pr cachePath tr]
      ∧ (searchFound (searchResultAt env pr cachePath branch commitBody tr) = true →
          searchStep env a pr cachePath branch commitBody tr
            = ([Event.git cachePath (emailArgs pr),
                Event.git cachePath
                  ["log", branch, "--all-match", "--author", authorEmailAt env pr cachePath tr]]
                ++ (if !a.onlyMissing then [Event.print (Message.alreadyMergedCheck branch)]
                    else []),
              none))
      ∧ (Event.git cachePath (cherryPickArgs pr)
            ∈ (searchStep env a pr cachePath branch commitBody tr).1
          ↔ searchFound (searchResultAt env pr cachePath branch commitBody tr) = false) := by
  have hq : logCommand branch (authorEmailAt env pr cachePath tr) commitBody
      = ["log", branch, "--all-match", "--author", authorEmailAt env pr cachePath tr] := by
    rw [logCommand_eq, specMessageLines_blank commitBody h]
    rfl
  refine ⟨hq, ?_, ?_⟩
  · intro hf
    rw [searchStep_found env a pr cachePath branch commitBody tr hf, hq]
  · cases hf : searchFound (searchResultAt env pr cachePath branch commitBody tr)
    · simp only [iff_true]
      rw [searchStep_not_found env a pr cachePath branch commitBody tr hf]
      exact List.mem_append_right _ (cherryPickStep_attempts env a pr cachePath branch _)
    · simp only [Bool.true_eq_false, iff_false]
      rw [searchStep_found env a pr cachePath branch commitBody tr hf, hq]
      intro hmem
      split_ifs at hmem <;> simp [emailArgs, cherryPickArgs] at hmem

/-- Witness of C2 as amended: a body made of white space, and a search that
prints nothing: the cherry-pick is attempted. -/
theorem blank_body_search_witness :
    BlankBody " \n\t" ∧
      Event.git "/cache" (cherryPickArgs demoPR)
        ∈ (searchStep (demoEnv " \n\t" gitOk gitUpToDate "none") (demoArgs false) demoPR
            "/cache" "main" " \n\t" []).1 :=
  ⟨by decide,
    (blank_body_search (demoEnv " \n\t" gitOk gitUpToDate "none") (demoArgs false) demoPR
      "/cache" "main" " \n\t" [] (by decide)).2.2.mpr (by decide)⟩

/-- Counterexample to C2: the merge commit has an empty body and the history
search, which then asks for the author only, prints a commit: both branches
are classified as already merged by the commit message check and no
cherry-pick is attempted. -/
theorem empty_body_classified_already_merged :
    BlankBody ""
      ∧ Event.print (Message.alreadyMergedCheck "release-1.0")
          ∈ (mergePR (demoEnv "" { stdout := "commit 9f2c1a", stderr := "", failed := false }
              gitUpToDate "none") (demoArgs false) []).1
      ∧ Event.git "/tmp/git_cache/Org/serviceA"
            ["log", "release-1.0", "--all-match", "--author", "dev@example.com"]
          ∈ (mergePR (demoEnv "" { stdout := "commit 9f2c1a", stderr := "", failed := false }
              gitUpToDate "none") (demoArgs false) []).1
      ∧ Event.git "/tmp/git_cache/Org/serviceA" (cherryPickArgs demoPR)
          ∉ (mergePR (demoEnv "" { stdout := "commit 9f2c1a", stderr := "", failed := false }
              gitUpToDate "none") (demoArgs false) []).1 := by
  decide

/-! ## Dry run -/

/-- An effect that is neither a push nor a call of the notifier, unless the
run is not a dry run. -/
theorem stepEvent_quiet (a : Args) (pr : PullRequest) (cachePath branch : String) (e : Event)
    (h : StepEvent a pr cachePath branch e) :
    (isPush e = true → a.dryRun = false) ∧ isNotifierCall e = false := by
  rcases h with ⟨m, rfl⟩ | ⟨args, rfl⟩ | rfl | ⟨hd, rfl⟩
  · simp [isPush, isNotifierCall]
  · simp [isPush, isNotifierCall]
  · simp [isPush, isNotifierCall, cherryPickArgs]
  · simp [isNotifierCall, hd]

theorem branchBody_quiet (env : Env) (a : Args) (pr : PullRequest)
    (cachePath branch : String) (tr : List Event) :
    ∀ e ∈ (branchBody env a pr cachePath branch tr).1,
      (isPush e = true → a.dryRun = false) ∧ isNotifierCall e = false := by
  obtain ⟨rest, h, hrest⟩ := branchBody_events env a pr cachePath branch tr
  intro e he
  rw [h, List.mem_append] at he
  rcases he with he | he
  · simp only [checkoutEvents, List.mem_cons, List.mem_singleton, List.not_mem_nil,
      or_false] at he
    rcases he with rfl | rfl | rfl <;> simp [isPush, isNotifierCall]
  · exact stepEvent_quiet a pr cachePath branch e (hrest e he)

theorem branchLoop_quiet (env : Env) (a : Args) (pr : PullRequest) (cachePath : String)
    (specs : List String) :
    ∀ (found : Bool) (tr : List Event),
      ∀ e ∈ (branchLoop env a pr cachePath specs found tr).1,
        (isPush e = true → a.dryRun = false) ∧ isNotifierCall e = false := by
  induction specs with
  | nil => intro found tr e he; simp [branchLoop] at he
  | cons spec rest ih =>
    intro found tr
    cases hr : resolveSpec a.repo spec with
    | none => rw [branchLoop_skip env a pr cachePath spec rest found tr hr]; exact ih found tr
    | some branch =>
      cases he : (branchBody env a pr cachePath branch tr).2 with
      | some e =>
        rw [branchLoop_abort env a pr cachePath spec branch rest found tr e hr he]
        exact branchBody_quiet env a pr cachePath branch tr
      | none =>
        rw [branchLoop_next env a pr cachePath spec branch rest found tr hr he]
        intro e hmem
        rcases List.mem_append.mp hmem with h1 | h1
        · exact branchBody_quiet env a pr cachePath branch tr e h1
        · exact ih true _ e h1

theorem notifyLoop_dryRun (env : Env) (a : Args) (pr : PullRequest)
    (refs : List (String × Int)) (tr : List Event) (h : a.dryRun = true) :
    notifyLoop env a pr refs tr = [] := by
  cases refs with
  | nil => rfl
  | cons r rest =>
    obtain ⟨issueRepo, num⟩ := r
    rw [notifyLoop, if_pos h]

theorem gitCloneRepo_quiet (env : Env) (url cachePath : String) (tr : List Event) :
    ∀ e ∈ (gitCloneRepo env url cachePath tr).1, isPush e = false ∧ isNotifierCall e = false := by
  intro e he
  unfold gitCloneRepo gitCloneDeferred at he
  split_ifs at he
  · simp only [List.mem_cons, List.mem_singleton, List.not_mem_nil, or_false] at he
    rcases he with rfl | rfl | rfl <;> simp [isPush, isNotifierCall]
  · simp only [List.mem_cons, List.mem_singleton, List.not_mem_nil, or_false] at he
    rcases he with rfl | rfl | rfl | rfl <;> simp [isPush, isNotifierCall]

theorem mergeKnownPR_dryRun (env : Env) (a : Args) (pr : PullRequest) (cachePath : String)
    (tr : List Event) (h : a.dryRun = true) :
    ∀ e ∈ (mergeKnownPR env a pr cachePath tr).1, isPush e = false ∧ isNotifierCall e = false := by
  have hloop : ∀ e ∈ (branchLoop env a pr cachePath a.mergeTo false tr).1,
      isPush e = false ∧ isNotifierCall e = false := by
    intro e he
    obtain ⟨h1, h2⟩ := branchLoop_quiet env a pr cachePath a.mergeTo false tr e he
    refine ⟨?_, h2⟩
    cases hp : isPush e
    · rfl
    · rw [h1 hp] at h; cases h
  by_cases hs : pr.state = "closed"
  · cases he : (branchLoop env a pr cachePath a.mergeTo false tr).2 with
    | some e =>
      rw [mergeKnownPR_abort env a pr cachePath tr e hs he]
      exact hloop
    | none =>
      rw [mergeKnownPR_notify env a pr cachePath tr hs he, notifyLoop_dryRun env a pr _ _ h,
        List.append_nil]
      exact hloop
  · rw [mergeKnownPR_open env a pr cachePath tr hs]
    intro e he; simp at he

/-- C5: in a dry run, whatever git and the hosting API answer and whatever
the list of target specs, no effect of `mergePR` is a `git push`, and none is
a call of the notifier to the hosting API: no issue lookup, no listing of
comments, no creation of a comment. -/
theorem dry_run_isolation (env : Env) (a : Args) (tr0 : List Event) (h : a.dryRun = true) :
    ∀ e ∈ (mergePR env a tr0).1, isPush e = false ∧ isNotifierCall e = false := by
  intro e he
  unfold mergePR at he
  simp only at he
  split_ifs at he
  · exact gitCloneRepo_quiet env _ _ tr0 e he
  · split at he
    · rcases List.mem_append.mp he with h1 | h1
      · exact gitCloneRepo_quiet env _ _ tr0 e h1
      · simp only [List.mem_singleton] at h1
        subst h1
        simp [isPush, isNotifierCall]
    · simp only [List.mem_append, List.mem_cons, List.mem_singleton, List.not_mem_nil,
        or_false] at he
      rcases he with (h1 | rfl | rfl) | h1
      · exact gitCloneRepo_quiet env _ _ tr0 e h1
      · simp [isPush, isNotifierCall]
      · simp [isPush, isNotifierCall]
      · exact mergeKnownPR_dryRun env a _ _ _ h e h1

/-- Witness of C5: the dry run on two release branches, the first of which
stops on a conflict, linked to an accessible issue. -/
theorem dry_run_isolation_witness :
    (demoArgs true).dryRun = true
      ∧ (mergePR (demoEnv "Fix bug A" gitOk gitUpToDate "release-1.0") (demoArgs true) []).2 = none
      ∧ ∀ e ∈ (mergePR (demoEnv "Fix bug A" gitOk gitUpToDate "release-1.0")
          (demoArgs true) []).1, isPush e = false ∧ isNotifierCall e = false :=
  ⟨rfl, by decide, dry_run_isolation _ _ _ rfl⟩

/-! ## A conflict does not end the branch loop -/

theorem conflictReported_append_git (branch : String) (l1 l2 : List Event)
    (h1 : ∀ e ∈ l1, ∃ dir args, e = Event.git dir args)
    (h : conflictReported branch (l1 ++ l2)) : conflictReported branch l2 := by
  obtain ⟨x, hx⟩ := h
  refine ⟨x, ?_⟩
  rcases hx with hx | hx
  · rcases List.mem_append.mp hx with hm | hm
    · obtain ⟨dir, args, he⟩ := h1 _ hm
      cases he
    · exact Or.inl hm
  · rcases List.mem_append.mp hx with hm | hm
    · obtain ⟨dir, args, he⟩ := h1 _ hm
      cases he
    · exact Or.inr hm

theorem not_conflictReported_git (branch : String) (l : List Event)
    (h1 : ∀ e ∈ l, ∃ dir args, e = Event.git dir args) : ¬ conflictReported branch l := by
  intro h
  have h2 : conflictReported branch (l ++ []) := by simpa using h
  obtain ⟨x, hx⟩ := conflictReported_append_git branch l [] h1 h2
  simp at hx

theorem checkoutEvents_git (cachePath branch : String) :
    ∀ e ∈ checkoutEvents cachePath branch, ∃ dir args, e = Event.git dir args := by
  intro e he
  simp only [checkoutEvents, List.mem_cons, List.mem_singleton, List.not_mem_nil,
    or_false] at he
  rcases he with rfl | rfl | rfl <;> exact ⟨_, _, rfl⟩

theorem cherryPickStep_after_conflict (env : Env) (a : Args) (pr : PullRequest)
    (cachePath branch : String) (tr : List Event)
    (h : conflictReported branch (cherryPickStep env a pr cachePath branch tr).1) :
    (cherryPickStep env a pr cachePath branch tr).2 = none
      ∨ (a.dryRun = false
          ∧ ∃ se so, (cherryPickStep env a pr cachePath branch tr).2
              = some (MergeError.push se so)) := by
  by_cases hf : specCherryPickOutcome (env.git tr cachePath (cherryPickArgs pr)).stderr
      = MergeOutcome.Fatal
  · exfalso
    rw [cherryPickStep_fatal env a pr cachePath branch tr hf] at h
    exact not_conflictReported_git branch _
      (by intro e he; simp only [List.mem_singleton] at he; exact ⟨_, _, he⟩) h
  · have hr := cherryPickReport_error a pr cachePath branch
      (env.git tr cachePath (cherryPickArgs pr))
    simp only [hf, if_false] at hr
    cases hres : (cherryPickStep env a pr cachePath branch tr).2 with
    | none => exact Or.inl rfl
    | some e =>
      right
      have hres2 := hres
      unfold cherryPickStep at hres2
      simp only [hr] at hres2
      obtain ⟨hd, se, so, rfl⟩ := pushStep_error env a cachePath branch _ _ hres2
      exact ⟨hd, se, so, rfl⟩

theorem branchBody_after_conflict (env : Env) (a : Args) (pr : PullRequest)
    (cachePath branch : String) (tr : List Event)
    (h : conflictReported branch (branchBody env a pr cachePath branch tr).1) :
    (branchBody env a pr cachePath branch tr).2 = none
      ∨ (a.dryRun = false
          ∧ ∃ se so, (branchBody env a pr cachePath branch tr).2
              = some (MergeError.push se so)) := by
  unfold branchBody at h ⊢
  simp only at h ⊢
  split_ifs at h ⊢ with h1 h2
  · exact absurd h (not_conflictReported_git branch _ (checkoutEvents_git cachePath branch))
  · refine absurd h (not_conflictReported_git branch _ ?_)
    intro e he
    rcases List.mem_append.mp he with h3 | h3
    · exact checkoutEvents_git cachePath branch e h3
    · simp only [List.mem_singleton] at h3; exact ⟨_, _, h3⟩
  · have h3 := conflictReported_append_git branch _ _
      (by
        intro e he
        rcases List.mem_append.mp he with h3 | h3
        · exact checkoutEvents_git cachePath branch e h3
        · simp only [List.mem_singleton] at h3; exact ⟨_, _, h3⟩) h
    unfold searchStep at h3 ⊢
    simp only at h3 ⊢
    have h4 := conflictReported_append_git branch _ _
      (by
        intro e he
        simp only [List.mem_cons, List.mem_singleton, List.not_mem_nil, or_false] at he
        rcases he with rfl | rfl <;> exact ⟨_, _, rfl⟩) h3
    unfold afterSearch at h4 ⊢
    split_ifs at h4 ⊢ with h5 h6
    · exact Or.inl rfl
    · exact Or.inl rfl
    · exact cherryPickStep_after_conflict env a pr cachePath branch _ h4

theorem branchLoop_skips (env : Env) (a : Args) (pr : PullRequest) (cachePath : String)
    (mid rest : List String) (found : Bool) (tr : List Event)
    (h : ∀ s ∈ mid, resolveSpec a.repo s = none) :
    branchLoop env a pr cachePath (mid ++ rest) found tr
      = branchLoop env a pr cachePath rest found tr := by
  induction mid with
  | nil => rfl
  | cons s mid ih =>
    rw [List.cons_append, branchLoop_skip env a pr cachePath s _ found tr
      (h s (List.mem_cons_self _ _))]
    exact ih (fun s hs => h s (List.mem_cons_of_mem _ hs))

theorem cherryPickReport_conflictReported (a : Args) (pr : PullRequest)
    (cachePath branch : String) (r : GitResult) :
    conflictReported branch (cherryPickReport a pr cachePath branch r).1
      ↔ specCherryPickOutcome r.stderr = MergeOutcome.Conflict := by
  unfold conflictReported cherryPickReport specCherryPickOutcome
  split_ifs <;> simp

theorem branchLoop_after_conflict (env : Env) (a : Args) (pr : PullRequest)
    (cachePath spec1 spec2 b1 b2 : String) (mid rest : List String) (found : Bool)
    (tr : List Event)
    (h1 : resolveSpec a.repo spec1 = some b1)
    (hmid : ∀ s ∈ mid, resolveSpec a.repo s = none)
    (h2 : resolveSpec a.repo spec2 = some b2)
    (hc : conflictReported b1 (branchBody env a pr cachePath b1 tr).1) :
    (∀ r, conflictReported b1 (cherryPickReport a pr cachePath b1 r).1
        ↔ specCherryPickOutcome r.stderr = MergeOutcome.Conflict)
      ∧ (a.dryRun = true → (branchBody env a pr cachePath b1 tr).2 = none)
      ∧ ((branchBody env a pr cachePath b1 tr).2 = none
          ∨ ∃ se so, (branchBody env a pr cachePath b1 tr).2 = some (MergeError.push se so))
      ∧ ((branchBody env a pr cachePath b1 tr).2 = none →
          (∃ post post2,
            (branchLoop env a pr cachePath (spec1 :: (mid ++ spec2 :: rest)) found tr).1
              = (branchBody env a pr cachePath b1 tr).1
                  ++ (branchBody env a pr cachePath b2
                        (tr ++ (branchBody env a pr cachePath b1 tr).1)).1 ++ post
            ∧ (branchBody env a pr cachePath b2
                  (tr ++ (branchBody env a pr cachePath b1 tr).1)).1
                = checkoutEvents cachePath b2 ++ post2)
          ∧ ∀ e, (branchBody env a pr cachePath b2
                    (tr ++ (branchBody env a pr cachePath b1 tr).1)).2 = some e →
              branchLoop env a pr cachePath (spec1 :: (mid ++ spec2 :: rest)) found tr
                = ((branchBody env a pr cachePath b1 tr).1
                    ++ (branchBody env a pr cachePath b2
                          (tr ++ (branchBody env a pr cachePath b1 tr).1)).1, some e)) := by
  have hb := branchBody_after_conflict env a pr cachePath b1 tr hc
  refine ⟨cherryPickReport_conflictReported a pr cachePath b1, ?_, ?_, ?_⟩
  · intro hd
    rcases hb with hb | ⟨hd2, _⟩
    · exact hb
    · rw [hd] at hd2; cases hd2
  · rcases hb with hb | ⟨_, hb⟩
    · exact Or.inl hb
    · exact Or.inr hb
  · intro hn
    rw [branchLoop_next env a pr cachePath spec1 b1 _ found tr h1 hn,
      branchLoop_skips env a pr cachePath mid _ true _ hmid]
    obtain ⟨post2, hpost2, _⟩ := branchBody_events env a pr cachePath b2
      (tr ++ (branchBody env a pr cachePath b1 tr).1)
    constructor
    · cases he : (branchBody env a pr cachePath b2
          (tr ++ (branchBody env a pr cachePath b1 tr).1)).2 with
      | some e =>
        rw [branchLoop_abort env a pr cachePath spec2 b2 rest true _ e h2 he]
        exact ⟨[], post2, by simp, hpost2⟩
      | none =>
        rw [branchLoop_next env a pr cachePath spec2 b2 rest true _ h2 he]
        exact ⟨_, post2, (List.append_assoc _ _ _).symm, hpost2⟩
    · intro e he
      rw [branchLoop_abort env a pr cachePath spec2 b2 rest true _ e h2 he]

/-! ## The issue notifier -/

theorem commentLoop_eq (a : Args) (pr : PullRequest) (issueRepo : String) (num : Int)
    (comments : List String) (specs : List String) :
    commentLoop a pr issueRepo num comments specs
      = ((specResolve a.repo specs).filter
            (fun b => !commentFound (commentBody pr.htmlURL b) comments)).map
          (fun b => Event.createComment a.org issueRepo num (commentBody pr.htmlURL b)) := by
  induction specs with
  | nil => rfl
  | cons spec rest ih =>
    rw [commentLoop]
    cases hr : resolveSpec a.repo spec with
    | none =>
      have hr2 : specResolveOne a.repo spec = none := by rw [← resolveSpec_eq]; exact hr
      have hs : specResolve a.repo (spec :: rest) = specResolve a.repo rest := by
        simp [specResolve, List.filterMap_cons, hr2]
      simp only [hs]
      exact ih
    | some branch =>
      have hr2 : specResolveOne a.repo spec = some branch := by rw [← resolveSpec_eq]; exact hr
      have hs : specResolve a.repo (spec :: rest) = branch :: specResolve a.repo rest := by
        simp [specResolve, List.filterMap_cons, hr2]
      simp only [hs]
      cases hf : commentFound (commentBody pr.htmlURL branch) comments
      · simp [hf, ih]
      · simp [hf, ih]

theorem notifyLoop_ok (env : Env) (a : Args) (pr : PullRequest) (issueRepo : String)
    (num : Int) (rest : List (String × Int)) (tr : List Event) (hd : a.dryRun = false)
    (hok : env.issueOk tr a.org issueRepo num = true) :
    notifyLoop env a pr ((issueRepo, num) :: rest) tr
      = notifyIssue env a pr issueRepo num tr
          ++ notifyLoop env a pr rest (tr ++ notifyIssue env a pr issueRepo num tr) := by
  rw [notifyLoop]
  simp [hd, hok]

theorem notifyLoop_broken (env : Env) (a : Args) (pr : PullRequest) (issueRepo : String)
    (num : Int) (rest : List (String × Int)) (tr : List Event) (hd : a.dryRun = false)
    (hok : env.issueOk tr a.org issueRepo num = false) :
    notifyLoop env a pr ((issueRepo, num) :: rest) tr
      = Event.issueGet a.org issueRepo num
          :: notifyLoop env a pr rest (tr ++ [Event.issueGet a.org issueRepo num]) := by
  rw [notifyLoop]
  simp [hd, hok]

theorem notifyLoop_append (env : Env) (a : Args) (pr : PullRequest)
    (refs1 refs2 : List (String × Int)) (hd : a.dryRun = false) :
    ∀ tr : List Event,
      notifyLoop env a pr (refs1 ++ refs2) tr
        = notifyLoop env a pr refs1 tr
            ++ notifyLoop env a pr refs2 (tr ++ notifyLoop env a pr refs1 tr) := by
  induction refs1 with
  | nil => intro tr; simp [notifyLoop]
  | cons ref rest ih =>
    intro tr
    obtain ⟨issueRepo, num⟩ := ref
    cases hok : env.issueOk tr a.org issueRepo num
    · rw [List.cons_append, notifyLoop_broken env a pr issueRepo num _ tr hd hok,
        notifyLoop_broken env a pr issueRepo num _ tr hd hok, ih]
      simp
    · rw [List.cons_append, notifyLoop_ok env a pr issueRepo num _ tr hd hok,
        notifyLoop_ok env a pr issueRepo num _ tr hd hok, ih]
      simp

theorem notifyIssue_created (env : Env) (a : Args) (pr : PullRequest) (issueRepo : String)
    (num : Int) (tr : List Event) (o r : String) (n : Int) (body : String) :
    Event.createComment o r n body ∈ notifyIssue env a pr issueRepo num tr
      ↔ (o = a.org ∧ r = issueRepo ∧ n = num
          ∧ ∃ b ∈ specResolve a.repo a.mergeTo, body = commentBody pr.htmlURL b
              ∧ commentFound (commentBody pr.htmlURL b)
                  (env.comments (tr ++ [Event.issueGet a.org issueRepo num]) a.org issueRepo num)
                  = false) := by
  unfold notifyIssue
  rw [commentLoop_eq]
  simp only [List.mem_cons, reduceCtorEq, false_or, List.mem_map, List.mem_filter,
    Bool.not_eq_eq_eq_not, Bool.not_true, Event.createComment.injEq]
  constructor
  · rintro ⟨b, ⟨hb, hf⟩, h1, h2, h3, h4⟩
    exact ⟨h1.symm, h2.symm, h3.symm, b, hb, h4.symm, hf⟩
  · rintro ⟨h1, h2, h3, b, hb, h4, hf⟩
    exact ⟨b, ⟨hb, hf⟩, h1.symm, h2.symm, h3.symm, h4.symm⟩

theorem notifyLoop_created (env : Env) (a : Args) (pr : PullRequest)
    (refs : List (String × Int)) (o r : String) (n : Int) (body : String) :
    ∀ tr : List Event, Event.createComment o r n body ∈ notifyLoop env a pr refs tr →
      o = a.org ∧ (r, n) ∈ refs
        ∧ ∃ b ∈ specResolve a.repo a.mergeTo, body = commentBody pr.htmlURL b := by
  induction refs with
  | nil => intro tr h; simp [notifyLoop] at h
  | cons ref rest ih =>
    intro tr h
    obtain ⟨issueRepo, num⟩ := ref
    cases hd : a.dryRun
    · cases hok : env.issueOk tr a.org issueRepo num
      · rw [notifyLoop_broken env a pr issueRepo num _ tr hd hok] at h
        simp only [List.mem_cons, reduceCtorEq, false_or] at h
        obtain ⟨h1, h2, h3⟩ := ih _ h
        exact ⟨h1, List.mem_cons_of_mem _ h2, h3⟩
      · rw [notifyLoop_ok env a pr issueRepo num _ tr hd hok] at h
        rcases List.mem_append.mp h with h | h
        · obtain ⟨h1, h2, h3, b, hb, h4, _⟩ :=
            (notifyIssue_created env a pr issueRepo num tr o r n body).mp h
          subst h2 h3
          exact ⟨h1, List.mem_cons_self _ _, b, hb, h4⟩
        · obtain ⟨h1, h2, h3⟩ := ih _ h
          exact ⟨h1, List.mem_cons_of_mem _ h2, h3⟩
    · rw [notifyLoop_dryRun env a pr _ tr hd] at h
      simp at h

theorem mergePR_events (env : Env) (a : Args) (pr : PullRequest) (tr0 : List Event)
    (hpr : env.getPR (tr0 ++ (gitCloneRepo env (urlOf a) (cachePathOf a) tr0).1)
      a.org a.repo a.issueNum = some pr)
    (hok : (mergePR env a tr0).2 = none) :
    (mergePR env a tr0).1
      = eventsBeforeNotifier env a pr tr0
          ++ notifyLoop env a pr (env.prURLRe pr.body)
              (tr0 ++ eventsBeforeNotifier env a pr tr0) := by
  unfold mergePR at hok ⊢
  simp only at hok ⊢
  split_ifs at hok ⊢ with hc
  rw [hpr] at hok ⊢
  simp only at hok ⊢
  by_cases hs : pr.state = "closed"
  · cases he : (branchLoop env a pr (cachePathOf a) a.mergeTo false
        (tr0 ++ ((gitCloneRepo env (urlOf a) (cachePathOf a) tr0).1
          ++ [Event.prGet a.org a.repo a.issueNum, Event.print (headerMessage a pr)]))).2 with
    | some e =>
      rw [mergeKnownPR_abort env a pr _ _ e hs he] at hok
      cases hok
    | none =>
      rw [mergeKnownPR_notify env a pr _ _ hs he]
      simp [eventsBeforeNotifier, List.append_assoc]
  · rw [mergeKnownPR_open env a pr _ _ hs] at hok
    cases hok

theorem eventsBeforeNotifier_quiet (env : Env) (a : Args) (pr : PullRequest) (tr0 : List Event) :
    ∀ e ∈ eventsBeforeNotifier env a pr tr0, isNotifierCall e = false := by
  intro e he
  unfold eventsBeforeNotifier at he
  simp only [List.mem_append, List.mem_cons, List.mem_singleton, List.not_mem_nil,
    or_false] at he
  rcases he with (h1 | rfl | rfl) | h1
  · exact (gitCloneRepo_quiet env _ _ tr0 e h1).2
  · rfl
  · rfl
  · exact (branchLoop_quiet env a pr _ a.mergeTo false _ e h1).2

/-- C8, as amended: in a run that is not a dry run and reaches the notifier,
every comment created is the status comment of a resolved target branch, on an
issue of the organisation given to `mergePR` whose repository name and number
are those of a link matched in the pull request body; and on every such issue
that is accessible when
its turn comes, every resolved target branch whose status comment is in none
of the comments fetched gets that comment, whatever the outcome of the branch
in the run, a conflict included. -/
theorem notifier_comments_whatever_outcome (env : Env) (a : Args) (pr : PullRequest)
    (tr0 : List Event)
    (hpr : env.getPR (tr0 ++ (gitCloneRepo env (urlOf a) (cachePathOf a) tr0).1)
      a.org a.repo a.issueNum = some pr)
    (hd : a.dryRun = false) (hok : (mergePR env a tr0).2 = none) :
    (∀ o r n body, Event.createComment o r n body ∈ (mergePR env a tr0).1 →
        o = a.org ∧ (r, n) ∈ env.prURLRe pr.body
          ∧ ∃ b ∈ specResolve a.repo a.mergeTo, body = commentBody pr.htmlURL b)
      ∧ (∀ refs1 refs2 r n b, env.prURLRe pr.body = refs1 ++ (r, n) :: refs2 →
          env.issueOk
            ((tr0 ++ eventsBeforeNotifier env a pr tr0)
              ++ notifyLoop env a pr refs1 (tr0 ++ eventsBeforeNotifier env a pr tr0))
            a.org r n = true →
          b ∈ specResolve a.repo a.mergeTo →
          commentFound (commentBody pr.htmlURL b)
            (env.comments
              (((tr0 ++ eventsBeforeNotifier env a pr tr0)
                ++ notifyLoop env a pr refs1 (tr0 ++ eventsBeforeNotifier env a pr tr0))
                ++ [Event.issueGet a.org r n]) a.org r n) = false →
          Event.createComment a.org r n (commentBody pr.htmlURL b) ∈ (mergePR env a tr0).1) := by
  have hev := mergePR_events env a pr tr0 hpr hok
  constructor
  · intro o r n body hmem
    rw [hev] at hmem
    rcases List.mem_append.mp hmem with h1 | h1
    · have := eventsBeforeNotifier_quiet env a pr tr0 _ h1
      simp [isNotifierCall] at this
    · exact notifyLoop_created env a pr _ o r n body _ h1
  · intro refs1 refs2 r n b hrefs hacc hb hnf
    rw [hev, hrefs, notifyLoop_append env a pr refs1 _ hd,
      notifyLoop_ok env a pr r n refs2 _ hd hacc]
    refine List.mem_append_right _ (List.mem_append_right _ (List.mem_append_left _ ?_))
    exact (notifyIssue_created env a pr r n _ a.org r n _).mpr
      ⟨rfl, rfl, rfl, b, hb, rfl, hnf⟩

/-- Witness of C8 as amended: the run on two release branches where the
cherry-pick on `release-2.0` stops on a conflict; the issue gets the comment
for `release-2.0`. -/
theorem notifier_comments_whatever_outcome_witness :
    (mergePR (demoEnv "Fix bug A" gitOk gitUpToDate "release-2.0") (demoArgs false) []).2 = none
      ∧ Event.createComment "Org" "serviceA" 10
          (commentBody "https://github.com/Org/serviceA/pull/5" "release-2.0")
          ∈ (mergePR (demoEnv "Fix bug A" gitOk gitUpToDate "release-2.0")
              (demoArgs false) []).1 :=
  ⟨by decide,
    (notifier_comments_whatever_outcome (demoEnv "Fix bug A" gitOk gitUpToDate "release-2.0")
      (demoArgs false) demoPR [] rfl rfl (by decide)).2 [] [] "serviceA" 10 "release-2.0"
      rfl rfl (by decide) (by decide)⟩

/-- Counterexample to C8: the cherry-pick on `release-1.0` stops on a
conflict, the conflict is reported, and the notifier still creates the comment
that says the pull request was merged to `release-1.0`. -/
theorem comment_created_after_conflict :
    (demoArgs false).dryRun = false
      ∧ Event.print (Message.conflict "release-1.0" "/tmp/git_cache/Org/serviceA")
          ∈ (mergePR (demoEnv "Fix bug A\nFix bug B" gitOk gitUpToDate "release-1.0")
              (demoArgs false) []).1
      ∧ Event.createComment "Org" "serviceA" 10
          (commentBody "https://github.com/Org/serviceA/pull/5" "release-1.0")
          ∈ (mergePR (demoEnv "Fix bug A\nFix bug B" gitOk gitUpToDate "release-1.0")
              (demoArgs false) []).1 := by
  decide

/-! ## Notification dedup -/

theorem commentFound_false_iff (body : String) (cs : List String) :
    commentFound body cs = false ↔ countContaining body cs = 0 := by
  induction cs with
  | nil => simp [commentFound, countContaining]
  | cons c cs ih =>
    unfold countContaining at ih ⊢
    cases hc : Contains c body
    · simp [commentFound, hc, List.countP_cons, ih]
    · simp [commentFound, hc, List.countP_cons]

theorem countContaining_append (text : String) (l1 l2 : List String) :
    countContaining text (l1 ++ l2) = countContaining text l1 + countContaining text l2 := by
  simp [countContaining, List.countP_append]

theorem createdComments_append (org repo : String) (num : Int) (h1 h2 : List Event) :
    createdComments org repo num (h1 ++ h2)
      = createdComments org repo num h1 ++ createdComments org repo num h2 := by
  simp [createdComments, List.filterMap_append]

theorem createdComments_commentLoop (a : Args) (pr : PullRequest) (issueRepo repo : String)
    (num n : Int) (comments : List String) (specs : List String) :
    createdComments a.org repo n (commentLoop a pr issueRepo num comments specs)
      = if issueRepo = repo ∧ num = n then
          ((specResolve a.repo specs).filter
            (fun b => !commentFound (commentBody pr.htmlURL b) comments)).map
            (fun b => commentBody pr.htmlURL b)
        else [] := by
  rw [commentLoop_eq]
  generalize (specResolve a.repo specs).filter
    (fun b => !commentFound (commentBody pr.htmlURL b) comments) = l
  induction l with
  | nil => simp [createdComments]
  | cons b l ih =>
    unfold createdComments at ih ⊢
    by_cases hc : issueRepo = repo ∧ num = n
    · simp only [hc, and_self, if_true] at ih ⊢
      simp [List.filterMap_cons, ih]
    · simp only [hc, if_false] at ih ⊢
      simp only [List.map_cons, List.filterMap_cons, true_and, hc, if_false]
      exact ih

theorem createdComments_notifyIssue (env : Env) (a : Args) (pr : PullRequest)
    (issueRepo repo : String) (num n : Int) (tr : List Event) :
    createdComments a.org repo n (notifyIssue env a pr issueRepo num tr)
      = if issueRepo = repo ∧ num = n then
          ((specResolve a.repo a.mergeTo).filter
            (fun b => !commentFound (commentBody pr.htmlURL b)
              (env.comments (tr ++ [Event.issueGet a.org issueRepo num]) a.org issueRepo num))).map
            (fun b => commentBody pr.htmlURL b)
        else [] := by
  rw [← createdComments_commentLoop a pr issueRepo repo num n]
  unfold notifyIssue
  simp [createdComments, List.filterMap_cons]

theorem filter_unique (l : List String) (p : String → Bool) (b : String)
    (hb : b ∈ l) (hp : p b = true) (h1 : l.countP p = 1) : l.filter p = [b] := by
  have hlen : (l.filter p).length = 1 := by rw [← List.countP_eq_length_filter]; exact h1
  have hmem : b ∈ l.filter p := List.mem_filter.mpr ⟨hb, hp⟩
  match hl : l.filter p, hlen, hmem with
  | [x], _, hm =>
    simp only [List.mem_singleton] at hm
    rw [hm]

theorem countContaining_new (url b : String) (resolved : List String) (nf : String → Bool)
    (hb : b ∈ resolved)
    (huniq : resolved.countP
      (fun e => Contains (commentBody url e) (commentBody url b)) = 1) :
    countContaining (commentBody url b)
        ((resolved.filter nf).map (fun e => commentBody url e))
      = if nf b = true then 1 else 0 := by
  unfold countContaining
  rw [List.countP_map, List.countP_eq_length_filter, List.filter_filter]
  have h1 : resolved.filter
      (fun e => ((fun c => Contains c (commentBody url b)) ∘ fun e => commentBody url e) e && nf e)
      = (resolved.filter
          (fun e => Contains (commentBody url e) (commentBody url b))).filter nf := by
    rw [List.filter_filter]
    congr 1
    funext e
    simp [Bool.and_comm]
  rw [h1, filter_unique resolved
    (fun e => Contains (commentBody url e) (commentBody url b)) b hb (contains_self _) huniq]
  cases hnf : nf b <;> simp [List.filter_cons, hnf]

theorem notifyIssue_count (env : Env) (a : Args) (pr : PullRequest) (r : String) (n : Int)
    (b : String) (init : List String) (tr : List Event)
    (hstore : ∀ h, env.comments h a.org r n = init ++ createdComments a.org r n h)
    (hb : b ∈ specResolve a.repo a.mergeTo)
    (huniq : (specResolve a.repo a.mergeTo).countP
      (fun e => Contains (commentBody pr.htmlURL e) (commentBody pr.htmlURL b)) = 1) :
    countContaining (commentBody pr.htmlURL b)
        (env.comments (tr ++ notifyIssue env a pr r n tr) a.org r n)
      = if countContaining (commentBody pr.htmlURL b) (env.comments tr a.org r n) = 0 then 1
        else countContaining (commentBody pr.htmlURL b) (env.comments tr a.org r n) := by
  have hfetch : env.comments (tr ++ [Event.issueGet a.org r n]) a.org r n
      = env.comments tr a.org r n := by
    rw [hstore, hstore, createdComments_append]
    simp [createdComments]
  rw [hstore (tr ++ notifyIssue env a pr r n tr), createdComments_append,
    createdComments_notifyIssue, hfetch, ← List.append_assoc, ← hstore tr,
    countContaining_append]
  simp only [and_self, if_true]
  rw [countContaining_new pr.htmlURL b _ _ hb huniq]
  cases hf : commentFound (commentBody pr.htmlURL b) (env.comments tr a.org r n)
  · have h0 := (commentFound_false_iff _ _).mp hf
    simp [h0]
  · have h0 : countContaining (commentBody pr.htmlURL b) (env.comments tr a.org r n) ≠ 0 := by
      intro hc
      rw [(commentFound_false_iff _ _).mpr hc] at hf
      cases hf
    simp [h0]

theorem notifyIssue_count_other (env : Env) (a : Args) (pr : PullRequest) (r r2 : String)
    (n n2 : Int) (text : String) (init : List String) (tr : List Event)
    (hstore : ∀ h, env.comments h a.org r n = init ++ createdComments a.org r n h)
    (hne : ¬ (r2 = r ∧ n2 = n)) :
    countContaining text (env.comments (tr ++ notifyIssue env a pr r2 n2 tr) a.org r n)
      = countContaining text (env.comments tr a.org r n) := by
  rw [hstore, hstore tr, createdComments_append, createdComments_notifyIssue]
  simp [hne]

theorem notifyLoop_count (env : Env) (a : Args) (pr : PullRequest) (r : String) (n : Int)
    (b : String) (init : List String) (hd : a.dryRun = false)
    (hok : ∀ h, env.issueOk h a.org r n = true)
    (hstore : ∀ h, env.comments h a.org r n = init ++ createdComments a.org r n h)
    (hb : b ∈ specResolve a.repo a.mergeTo)
    (huniq : (specResolve a.repo a.mergeTo).countP
      (fun e => Contains (commentBody pr.htmlURL e) (commentBody pr.htmlURL b)) = 1)
    (refs : List (String × Int)) :
    ∀ tr : List Event,
      countContaining (commentBody pr.htmlURL b)
          (env.comments (tr ++ notifyLoop env a pr refs tr) a.org r n)
        = if (r, n) ∈ refs ∧
              countContaining (commentBody pr.htmlURL b) (env.comments tr a.org r n) = 0
          then 1
          else countContaining (commentBody pr.htmlURL b) (env.comments tr a.org r n) := by
  induction refs with
  | nil => intro tr; simp [notifyLoop]
  | cons ref rest ih =>
    intro tr
    obtain ⟨r2, n2⟩ := ref
    by_cases hsame : r2 = r ∧ n2 = n
    · obtain ⟨rfl, rfl⟩ := hsame
      rw [notifyLoop_ok env a pr r2 n2 rest tr hd (hok tr), ← List.append_assoc, ih,
        notifyIssue_count env a pr r2 n2 b init tr hstore hb huniq]
      by_cases h0 : countContaining (commentBody pr.htmlURL b) (env.comments tr a.org r2 n2) = 0
      · simp [h0]
      · simp [h0]
    · have hmem : (r, n) ∈ (r2, n2) :: rest ↔ (r, n) ∈ rest := by
        simp only [List.mem_cons, Prod.mk.injEq]
        constructor
        · rintro (⟨h1, h2⟩ | h)
          · exact absurd ⟨h1.symm, h2.symm⟩ hsame
          · exact h
        · exact fun h => Or.inr h
      cases hacc : env.issueOk tr a.org r2 n2
      · have hsame2 : env.comments (tr ++ [Event.issueGet a.org r2 n2]) a.org r n
            = env.comments tr a.org r n := by
          rw [hstore, hstore tr, createdComments_append]
          simp [createdComments]
        rw [notifyLoop_broken env a pr r2 n2 rest tr hd hacc,
          ← List.singleton_append, ← List.append_assoc, ih, hsame2]
        simp only [hmem]
      · rw [notifyLoop_ok env a pr r2 n2 rest tr hd hacc, ← List.append_assoc, ih,
          notifyIssue_count_other env a pr r r2 n n2 _ init tr hstore hsame]
        simp only [hmem]

/-- C6, as amended: for an accessible issue the pull request links to, whose
comments are the initial ones followed by every comment created on it, and a
resolved target branch whose status comment is contained in the status comment
of exactly one entry of the resolved list (the branch is listed once, and no
other listed branch has a status comment that contains this one): if no
comment of the issue contains the status comment at first, then after one run
of the notifier, and still after a second run that sees the comments left by
the first, exactly one comment of the issue contains it. -/
theorem notification_dedup (env : Env) (a : Args) (pr : PullRequest)
    (refs : List (String × Int)) (r : String) (n : Int) (b : String) (init : List String)
    (tr0 : List Event) (hd : a.dryRun = false) (href : (r, n) ∈ refs)
    (hok : ∀ h, env.issueOk h a.org r n = true)
    (hstore : ∀ h, env.comments h a.org r n = init ++ createdComments a.org r n h)
    (hb : b ∈ specResolve a.repo a.mergeTo)
    (huniq : (specResolve a.repo a.mergeTo).countP
      (fun e => Contains (commentBody pr.htmlURL e) (commentBody pr.htmlURL b)) = 1)
    (hinit : countContaining (commentBody pr.htmlURL b) (env.comments tr0 a.org r n) = 0) :
    countContaining (commentBody pr.htmlURL b)
        (env.comments (tr0 ++ notifyLoop env a pr refs tr0) a.org r n) = 1
      ∧ countContaining (commentBody pr.htmlURL b)
          (env.comments
            ((tr0 ++ notifyLoop env a pr refs tr0)
              ++ notifyLoop env a pr refs (tr0 ++ notifyLoop env a pr refs tr0)) a.org r n)
          = 1 := by
  have h1 : countContaining (commentBody pr.htmlURL b)
      (env.comments (tr0 ++ notifyLoop env a pr refs tr0) a.org r n) = 1 := by
    rw [notifyLoop_count env a pr r n b init hd hok hstore hb huniq refs tr0]
    simp [href, hinit]
  refine ⟨h1, ?_⟩
  rw [notifyLoop_count env a pr r n b init hd hok hstore hb huniq refs _, h1]
  simp

/-- Witness of C6 as amended: issue 10 and the branch `release-1.0`, listed
once next to `release-2.0`. -/
theorem notification_dedup_witness :
    countContaining (commentBody demoPR.htmlURL "release-1.0")
        ((demoEnv "Fix bug A" gitOk gitUpToDate "none").comments [] "Org" "serviceA" 10) = 0
      ∧ countContaining (commentBody demoPR.htmlURL "release-1.0")
          ((demoEnv "Fix bug A" gitOk gitUpToDate "none").comments
            (([] ++ notifyLoop (demoEnv "Fix bug A" gitOk gitUpToDate "none") (demoArgs false)
                demoPR [("serviceA", 10)] [])
              ++ notifyLoop (demoEnv "Fix bug A" gitOk gitUpToDate "none") (demoArgs false)
                demoPR [("serviceA", 10)]
                ([] ++ notifyLoop (demoEnv "Fix bug A" gitOk gitUpToDate "none")
                  (demoArgs false) demoPR [("serviceA", 10)] []))
            "Org" "serviceA" 10) = 1 :=
  ⟨by decide,
    (notification_dedup (demoEnv "Fix bug A" gitOk gitUpToDate "none") (demoArgs false) demoPR
      [("serviceA", 10)] "serviceA" 10 "release-1.0" [] [] rfl (by decide) (fun _ => rfl)
      (fun _ => rfl) (by decide) (by decide) (by decide)).2⟩

/-- Counterexample to C6: the branch `release-1.0` is listed twice; issue 10
has no comment at first, the first run of the notifier creates the status
comment twice, and after the second run two comments of the issue contain
it. -/
theorem duplicate_spec_duplicates_comment :
    specResolve "serviceA" ["release-1.0", "release-1.0"] = ["release-1.0", "release-1.0"]
      ∧ countContaining (commentBody demoPR.htmlURL "release-1.0")
          ((demoEnv "Fix bug A" gitOk gitUpToDate "none").comments [] "Org" "serviceA" 10) = 0
      ∧ countContaining (commentBody demoPR.htmlURL "release-1.0")
          ((demoEnv "Fix bug A" gitOk gitUpToDate "none").comments
            (notifyLoop (demoEnv "Fix bug A" gitOk gitUpToDate "none")
                { demoArgs false with mergeTo := ["release-1.0", "release-1.0"] }
                demoPR [("serviceA", 10)] []
              ++ notifyLoop (demoEnv "Fix bug A" gitOk gitUpToDate "none")
                { demoArgs false with mergeTo := ["release-1.0", "release-1.0"] }
                demoPR [("serviceA", 10)]
                (notifyLoop (demoEnv "Fix bug A" gitOk gitUpToDate "none")
                  { demoArgs false with mergeTo := ["release-1.0", "release-1.0"] }
                  demoPR [("serviceA", 10)] []))
            "Org" "serviceA" 10) = 2 := by
  decide

/-! ## A fatal cherry-pick ends the run -/

theorem split_at_of_not_mem (l1 l2 pre post : List Event) (x : Event)
    (h : l1 ++ l2 = pre ++ x :: post) (hx : x ∉ l1) :
    ∃ pre2, pre = l1 ++ pre2 ∧ l2 = pre2 ++ x :: post := by
  rcases List.append_eq_append_iff.mp h with ⟨a, h1, h2⟩ | ⟨c, h1, h2⟩
  · exact ⟨a, h1, h2⟩
  · cases c with
    | nil => exact ⟨[], by simpa using h1.symm, by simpa using h2.symm⟩
    | cons y c =>
      simp only [List.cons_append, List.cons.injEq] at h2
      exact absurd (by rw [h1, h2.1]; simp) hx

theorem fatalAborts_append (env : Env) (tr done : List Event)
    (res : List Event × Option MergeError)
    (hdone : ∀ e ∈ done, isCherryPick e = false)
    (h : FatalCherryPickAborts env (tr ++ done) res) :
    FatalCherryPickAborts env tr (done ++ res.1, res.2) := by
  intro pre post dir sha heq hf
  have hx : Event.git dir ["cherry-pick", "-x", sha] ∉ done := by
    intro hm
    have := hdone _ hm
    simp [isCherryPick] at this
  obtain ⟨pre2, rfl, h2⟩ := split_at_of_not_mem done res.1 pre post _ heq hx
  rw [← List.append_assoc] at hf ⊢
  exact h pre2 post dir sha h2 hf

theorem fatalAborts_of_quiet (env : Env) (tr : List Event)
    (res : List Event × Option MergeError) (h : ∀ e ∈ res.1, isCherryPick e = false) :
    FatalCherryPickAborts env tr res := by
  intro pre post dir sha heq _
  have := h (Event.git dir ["cherry-pick", "-x", sha]) (by rw [heq]; simp)
  simp [isCherryPick] at this

theorem pushStep_no_cherryPick (env : Env) (a : Args) (cachePath branch : String)
    (tr : List Event) :
    ∀ e ∈ (pushStep env a cachePath branch tr).1, isCherryPick e = false := by
  intro e he
  unfold pushStep at he
  split_ifs at he <;> simp at he <;> subst he <;> simp [isCherryPick]

theorem cherryPickReport_no_cherryPick (a : Args) (pr : PullRequest)
    (cachePath branch : String) (r : GitResult) :
    ∀ e ∈ (cherryPickReport a pr cachePath branch r).1, isCherryPick e = false := by
  intro e he
  obtain ⟨m, rfl⟩ := cherryPickReport_events a pr cachePath branch r e he
  rfl

theorem cherryPickStep_fatalAborts (env : Env) (a : Args) (pr : PullRequest)
    (cachePath branch : String) (tr : List Event) :
    FatalCherryPickAborts env tr (cherryPickStep env a pr cachePath branch tr) := by
  intro pre post dir sha heq hf
  have htail : ∀ l : List Event, (∀ e ∈ l, isCherryPick e = false) →
      Event.git cachePath (cherryPickArgs pr) :: l
        = pre ++ Event.git dir ["cherry-pick", "-x", sha] :: post →
      pre = [] ∧ dir = cachePath ∧ sha = pr.mergeCommitSHA := by
    intro l hl h
    cases pre with
    | nil =>
      simp only [List.nil_append, List.cons.injEq, Event.git.injEq, cherryPickArgs,
        true_and, and_true] at h
      exact ⟨rfl, h.1.1.symm, h.1.2.symm⟩
    | cons y pre =>
      simp only [List.cons_append, List.cons.injEq] at h
      have := hl (Event.git dir ["cherry-pick", "-x", sha]) (by rw [h.2]; simp)
      simp [isCherryPick] at this
  have hshape : ∃ l : List Event, (∀ e ∈ l, isCherryPick e = false)
      ∧ (cherryPickStep env a pr cachePath branch tr).1
          = Event.git cachePath (cherryPickArgs pr) :: l := by
    unfold cherryPickStep
    simp only
    split
    · exact ⟨_, cherryPickReport_no_cherryPick a pr cachePath branch _, rfl⟩
    · refine ⟨_, ?_, List.cons_append _ _ _⟩
      intro e he
      rcases List.mem_append.mp he with h1 | h1
      · exact cherryPickReport_no_cherryPick a pr cachePath branch _ e h1
      · exact pushStep_no_cherryPick env a cachePath branch _ e h1
  obtain ⟨l, hl, hl2⟩ := hshape
  obtain ⟨hpre, hdir, hsha⟩ := htail l hl (hl2.symm.trans heq)
  rw [hpre, hdir, hsha] at hf heq ⊢
  simp only [List.append_nil] at hf ⊢
  have hcp := cherryPickStep_fatal env a pr cachePath branch tr hf
  rw [hcp] at heq
  simp only [List.nil_append, List.cons.injEq, true_and, cherryPickArgs] at heq
  exact ⟨heq.symm, by rw [hcp]; rfl⟩

theorem branchBody_fatalAborts (env : Env) (a : Args) (pr : PullRequest)
    (cachePath branch : String) (tr : List Event) :
    FatalCherryPickAborts env tr (branchBody env a pr cachePath branch tr) := by
  have hco : ∀ e ∈ checkoutEvents cachePath branch, isCherryPick e = false := by
    intro e he
    simp only [checkoutEvents, List.mem_cons, List.mem_singleton, List.not_mem_nil,
      or_false] at he
    rcases he with rfl | rfl | rfl <;> simp [isCherryPick]
  have hco2 : ∀ e ∈ checkoutEvents cachePath branch ++ [Event.git cachePath (bodyArgs pr)],
      isCherryPick e = false := by
    intro e he
    rcases List.mem_append.mp he with h | h
    · exact hco e h
    · simp only [List.mem_singleton] at h; subst h; simp [isCherryPick, bodyArgs]
  unfold branchBody
  simp only
  split_ifs
  · exact fatalAborts_of_quiet env tr _ hco
  · exact fatalAborts_of_quiet env tr _ hco2
  · refine fatalAborts_append env tr _ _ hco2 ?_
    unfold searchStep
    simp only
    refine fatalAborts_append env _ _ _ ?_ ?_
    · intro e he
      simp only [List.mem_cons, List.mem_singleton, List.not_mem_nil, or_false] at he
      rcases he with rfl | rfl
      · simp [isCherryPick, emailArgs]
      · simp [isCherryPick, logCommand_eq]
    · unfold afterSearch
      split_ifs
      · exact fatalAborts_of_quiet env _ _ (by intro e he; simp at he; subst he; rfl)
      · exact fatalAborts_of_quiet env _ _ (by intro e he; simp at he)
      · exact cherryPickStep_fatalAborts env a pr cachePath branch _

theorem branchLoop_fatalAborts (env : Env) (a : Args) (pr : PullRequest) (cachePath : String)
    (specs : List String) :
    ∀ (found : Bool) (tr : List Event),
      FatalCherryPickAborts env tr (branchLoop env a pr cachePath specs found tr) := by
  induction specs with
  | nil => intro found tr pre post dir sha heq; simp [branchLoop] at heq
  | cons spec rest ih =>
    intro found tr
    cases hr : resolveSpec a.repo spec with
    | none => rw [branchLoop_skip env a pr cachePath spec rest found tr hr]; exact ih found tr
    | some branch =>
      have hb := branchBody_fatalAborts env a pr cachePath branch tr
      cases he : (branchBody env a pr cachePath branch tr).2 with
      | some e =>
        rw [branchLoop_abort env a pr cachePath spec branch rest found tr e hr he]
        intro pre post dir sha heq hf
        obtain ⟨h1, h2⟩ := hb pre post dir sha heq hf
        exact ⟨h1, he.symm.trans h2⟩
      | none =>
        rw [branchLoop_next env a pr cachePath spec branch rest found tr hr he]
        intro pre post dir sha heq hf
        simp only at heq
        rcases List.append_eq_append_iff.mp heq with ⟨p2, h1, h2⟩ | ⟨c, h1, h2⟩
        · subst h1
          rw [← List.append_assoc] at hf ⊢
          exact ih true _ p2 post dir sha h2 hf
        · cases c with
          | nil =>
            simp only [List.append_nil] at h1
            simp only [List.nil_append] at h2
            subst h1
            have := ih true _ [] post dir sha h2.symm (by simpa using hf)
            simpa using this
          | cons y c =>
            simp only [List.cons_append, List.cons.injEq] at h2
            obtain ⟨rfl, _⟩ := h2
            obtain ⟨_, h4⟩ := hb pre c dir sha h1 hf
            rw [he] at h4
            cases h4

theorem split_left_of_not_mem (l1 l2 pre post : List Event) (x : Event)
    (h : l1 ++ l2 = pre ++ x :: post) (hx : x ∉ l2) : ∃ c, l1 = pre ++ x :: c := by
  rcases List.append_eq_append_iff.mp h with ⟨a, _, h2⟩ | ⟨c, h1, h2⟩
  · exact absurd (by rw [h2]; simp) hx
  · cases c with
    | nil =>
      simp only [List.nil_append] at h2
      exact absurd (by rw [← h2]; simp) hx
    | cons y c =>
      simp only [List.cons_append, List.cons.injEq] at h2
      exact ⟨c, by rw [h1, h2.1]⟩

theorem notifyLoop_calls (env : Env) (a : Args) (pr : PullRequest)
    (refs : List (String × Int)) :
    ∀ tr : List Event, ∀ e ∈ notifyLoop env a pr refs tr, isNotifierCall e = true := by
  induction refs with
  | nil => intro tr e he; simp [notifyLoop] at he
  | cons ref rest ih =>
    intro tr e he
    obtain ⟨r2, n2⟩ := ref
    cases hd : a.dryRun
    · cases hacc : env.issueOk tr a.org r2 n2
      · rw [notifyLoop_broken env a pr r2 n2 rest tr hd hacc] at he
        rcases List.mem_cons.mp he with rfl | he
        · rfl
        · exact ih _ e he
      · rw [notifyLoop_ok env a pr r2 n2 rest tr hd hacc] at he
        rcases List.mem_append.mp he with he | he
        · unfold notifyIssue at he
          rw [commentLoop_eq] at he
          simp only [List.mem_cons, List.mem_map] at he
          rcases he with rfl | rfl | ⟨b, _, rfl⟩ <;> rfl
        · exact ih _ e he
    · rw [notifyLoop_dryRun env a pr _ tr hd] at he
      simp at he

theorem mergeKnownPR_fatalAborts (env : Env) (a : Args) (pr : PullRequest) (cachePath : String)
    (tr : List Event) :
    FatalCherryPickAborts env tr (mergeKnownPR env a pr cachePath tr) := by
  by_cases hs : pr.state = "closed"
  · have hl := branchLoop_fatalAborts env a pr cachePath a.mergeTo false tr
    cases he : (branchLoop env a pr cachePath a.mergeTo false tr).2 with
    | some e =>
      rw [mergeKnownPR_abort env a pr cachePath tr e hs he]
      intro pre post dir sha heq hf
      obtain ⟨h1, h2⟩ := hl pre post dir sha heq hf
      exact ⟨h1, he.symm.trans h2⟩
    | none =>
      rw [mergeKnownPR_notify env a pr cachePath tr hs he]
      intro pre post dir sha heq hf
      exfalso
      have hx : Event.git dir ["cherry-pick", "-x", sha]
          ∉ notifyLoop env a pr (env.prURLRe pr.body)
              (tr ++ (branchLoop env a pr cachePath a.mergeTo false tr).1) := by
        intro hm
        have := notifyLoop_calls env a pr _ _ _ hm
        simp [isNotifierCall] at this
      obtain ⟨c, hc⟩ := split_left_of_not_mem _ _ pre post _ heq.symm.symm hx
      obtain ⟨_, h4⟩ := hl pre c dir sha hc hf
      rw [he] at h4
      cases h4
  · rw [mergeKnownPR_open env a pr cachePath tr hs]
    intro pre post dir sha heq; simp at heq

theorem mergePR_fatalAborts (env : Env) (a : Args) (tr0 : List Event) :
    FatalCherryPickAborts env tr0 (mergePR env a tr0) := by
  have hcl : ∀ e ∈ (gitCloneRepo env (urlOf a) (cachePathOf a) tr0).1,
      isCherryPick e = false := by
    intro e he
    unfold gitCloneRepo gitCloneDeferred at he
    split_ifs at he
    · simp only [List.mem_cons, List.mem_singleton, List.not_mem_nil, or_false] at he
      rcases he with rfl | rfl | rfl <;> simp [isCherryPick]
    · simp only [List.mem_cons, List.mem_singleton, List.not_mem_nil, or_false] at he
      rcases he with rfl | rfl | rfl | rfl <;> simp [isCherryPick]
  unfold mergePR
  simp only
  split_ifs
  · exact fatalAborts_of_quiet env tr0 _ hcl
  · split
    · refine fatalAborts_of_quiet env tr0 _ ?_
      intro e he
      rcases List.mem_append.mp he with h | h
      · exact hcl e h
      · simp only [List.mem_singleton] at h; subst h; rfl
    · refine fatalAborts_append env tr0 _ _ ?_ (mergeKnownPR_fatalAborts env a _ _ _)
      intro e he
      simp only [List.mem_append, List.mem_cons, List.mem_singleton, List.not_mem_nil,
        or_false] at he
      rcases he with h | rfl | rfl
      · exact hcl e h
      · rfl
      · rfl

/-- C3: the diagnostic of the cherry-pick is classified by a chain of four
cases that exclude each other and leave nothing out: already merged when it
contains `allow-empty`; else a conflict when it contains `error: could not
apply`; else fatal when it is not empty; else (empty) applied.  The code takes
the path of the case, only the fatal case returns an error at this step, and a
fatal cherry-pick is the last effect of the run: `mergePR` returns its error,
no later branch is processed and the notifier does not run: in every run a
cherry-pick whose diagnostic is fatal is followed by no effect and its error
is the one returned, and a run that returns the error of a cherry-pick ends at
that cherry-pick. -/
theorem cherryPick_outcome_classification (env : Env) (a : Args) (pr : PullRequest)
    (cachePath branch : String) (tr : List Event) (r : GitResult) :
    (specCherryPickOutcome r.stderr = MergeOutcome.AlreadyMerged
        ↔ Contains r.stderr "allow-empty" = true)
      ∧ (specCherryPickOutcome r.stderr = MergeOutcome.Conflict
        ↔ Contains r.stderr "allow-empty" = false
          ∧ Contains r.stderr "error: could not apply" = true)
      ∧ (specCherryPickOutcome r.stderr = MergeOutcome.Fatal
        ↔ Contains r.stderr "allow-empty" = false
          ∧ Contains r.stderr "error: could not apply" = false ∧ r.stderr ≠ "")
      ∧ (specCherryPickOutcome r.stderr = MergeOutcome.Applied ↔ r.stderr = "")
      ∧ specCherryPickOutcome r.stderr ≠ MergeOutcome.AppliedDryRun
      ∧ (specCherryPickOutcome r.stderr = MergeOutcome.AlreadyMerged →
          cherryPickReport a pr cachePath branch r
            = (if !a.onlyMissing then [Event.print (Message.alreadyMerged branch)] else [], none))
      ∧ (specCherryPickOutcome r.stderr = MergeOutcome.Conflict →
          cherryPickReport a pr cachePath branch r
            = (if !a.embedded then [Event.print (Message.conflict branch cachePath)]
                else [Event.print (Message.conflictEmbedded pr.mergeCommitSHA branch)], none))
      ∧ (specCherryPickOutcome r.stderr = MergeOutcome.Fatal →
          cherryPickReport a pr cachePath branch r
            = ([], some (MergeError.cherryPick r.stderr r.stdout)))
      ∧ (specCherryPickOutcome r.stderr = MergeOutcome.Applied →
          cherryPickReport a pr cachePath branch r
            = (if !a.dryRun then [Event.print (Message.merged branch)]
                else [Event.print (Message.canBeMerged branch)], none))
      ∧ ((cherryPickReport a pr cachePath branch r).2 ≠ none
        ↔ specCherryPickOutcome r.stderr = MergeOutcome.Fatal)
      ∧ (specCherryPickOutcome (env.git tr cachePath (cherryPickArgs pr)).stderr
            = MergeOutcome.Fatal →
          cherryPickStep env a pr cachePath branch tr
            = ([Event.git cachePath (cherryPickArgs pr)],
                some (MergeError.cherryPick (env.git tr cachePath (cherryPickArgs pr)).stderr
                  (env.git tr cachePath (cherryPickArgs pr)).stdout)))
      ∧ (∀ spec rest found e, resolveSpec a.repo spec = some branch →
          (branchBody env a pr cachePath branch tr).2 = some e →
          branchLoop env a pr cachePath (spec :: rest) found tr
            = ((branchBody env a pr cachePath branch tr).1, some e))
      ∧ (∀ e, pr.state = "closed" →
          (branchLoop env a pr cachePath a.mergeTo false tr).2 = some e →
          mergeKnownPR env a pr cachePath tr
            = ((branchLoop env a pr cachePath a.mergeTo false tr).1, some e))
      ∧ FatalCherryPickAborts env tr (mergePR env a tr)
      ∧ EndsAtFatalCherryPick env tr (mergePR env a tr) := by
  have e1 : Contains "" "allow-empty" = false := by decide
  have e2 : Contains "" "error: could not apply" = false := by decide
  refine ⟨?_, ?_, ?_, ?_, ?_, ?_, ?_, cherryPickReport_fatal a pr cachePath branch r, ?_, ?_,
    cherryPickStep_fatal env a pr cachePath branch tr,
    fun spec rest found e h he => branchLoop_abort env a pr cachePath spec branch rest found tr e h he,
    fun e h he => mergeKnownPR_abort env a pr cachePath tr e h he,
    mergePR_fatalAborts env a tr, mergePR_endsAtFatal env a tr⟩
  · unfold specCherryPickOutcome; split_ifs <;> simp_all
  · unfold specCherryPickOutcome; split_ifs <;> simp_all
  · unfold specCherryPickOutcome; split_ifs <;> simp_all
  · unfold specCherryPickOutcome
    split_ifs with h1 h2 h3
    · simp only [false_iff, reduceCtorEq]; intro h; rw [h, e1] at h1; cases h1
    · simp only [false_iff, reduceCtorEq]; intro h; rw [h, e2] at h2; cases h2
    · simp_all
    · simp_all
  · unfold specCherryPickOutcome; split_ifs <;> simp
  · intro h
    unfold specCherryPickOutcome at h
    unfold cherryPickReport
    split_ifs at h ⊢ <;> simp_all
  · intro h
    unfold specCherryPickOutcome at h
    unfold cherryPickReport
    split_ifs at h ⊢ <;> simp_all
  · intro h
    unfold specCherryPickOutcome at h
    unfold cherryPickReport
    split_ifs at h ⊢ <;> simp_all
  · rw [cherryPickReport_error]
    split_ifs <;> simp_all

/-! ## Where a run pushes -/

theorem branchBody_checkout_failed (env : Env) (a : Args) (pr : PullRequest)
    (cachePath branch : String) (tr : List Event)
    (h : (checkoutResultAt env cachePath branch tr).failed = true) :
    (branchBody env a pr cachePath branch tr).1 = checkoutEvents cachePath branch := by
  unfold checkoutResultAt at h
  unfold branchBody
  simp only [h, if_true]

theorem branchBody_body_failed (env : Env) (a : Args) (pr : PullRequest)
    (cachePath branch : String) (tr : List Event)
    (h1 : (checkoutResultAt env cachePath branch tr).failed = false)
    (h2 : (commitBodyAt env pr cachePath branch tr).failed = true) :
    (branchBody env a pr cachePath branch tr).1
      = checkoutEvents cachePath branch ++ [Event.git cachePath (bodyArgs pr)] := by
  unfold checkoutResultAt at h1
  unfold commitBodyAt at h2
  unfold branchBody
  simp only [h1, h2, if_true, Bool.false_eq_true, if_false]

theorem branchBody_search (env : Env) (a : Args) (pr : PullRequest)
    (cachePath branch : String) (tr : List Event)
    (h1 : (checkoutResultAt env cachePath branch tr).failed = false)
    (h2 : (commitBodyAt env pr cachePath branch tr).failed = false) :
    branchBody env a pr cachePath branch tr
      = ((checkoutEvents cachePath branch ++ [Event.git cachePath (bodyArgs pr)])
          ++ (searchStep env a pr cachePath branch
                (commitBodyAt env pr cachePath branch tr).stdout
                (searchHistory pr cachePath branch tr)).1,
        (searchStep env a pr cachePath branch
          (commitBodyAt env pr cachePath branch tr).stdout
          (searchHistory pr cachePath branch tr)).2) := by
  unfold checkoutResultAt at h1
  unfold commitBodyAt at h2 ⊢
  unfold branchBody searchHistory
  simp only [h1, h2, Bool.false_eq_true, if_false]

theorem checkoutEvents_no_push (cachePath branch : String) :
    ∀ e ∈ checkoutEvents cachePath branch, isPush e = false := by
  intro e he
  simp only [checkoutEvents, List.mem_cons, List.mem_singleton, List.not_mem_nil,
    or_false] at he
  rcases he with rfl | rfl | rfl <;> simp [isPush]

theorem branchBody_push (env : Env) (a : Args) (pr : PullRequest)
    (cachePath branch : String) (tr : List Event) (e : Event) :
    (e ∈ (branchBody env a pr cachePath branch tr).1 ∧ isPush e = true)
      ↔ (e = pushEvent cachePath branch ∧ a.dryRun = false
          ∧ (checkoutResultAt env cachePath branch tr).failed = false
          ∧ (commitBodyAt env pr cachePath branch tr).failed = false
          ∧ searchFound (passSearchAt env pr cachePath branch tr) = false
          ∧ specCherryPickOutcome (passCherryPickAt env pr cachePath branch tr).stderr
              ≠ MergeOutcome.Fatal) := by
  cases h1 : (checkoutResultAt env cachePath branch tr).failed
  · cases h2 : (commitBodyAt env pr cachePath branch tr).failed
    · rw [branchBody_search env a pr cachePath branch tr h1 h2]
      have hdone : ∀ x ∈ checkoutEvents cachePath branch ++ [Event.git cachePath (bodyArgs pr)],
          isPush x = false := by
        intro x hx
        rcases List.mem_append.mp hx with h | h
        · exact checkoutEvents_no_push cachePath branch x h
        · simp only [List.mem_singleton] at h; subst h; simp [isPush, bodyArgs]
      cases hf : searchFound (passSearchAt env pr cachePath branch tr)
      · rw [searchStep_not_found env a pr cachePath branch _ _ hf]
        have hcp := cherryPickStep_push env a pr cachePath branch
          (searchHistory pr cachePath branch tr
            ++ [Event.git cachePath (emailArgs pr),
                Event.git cachePath
                  (logCommand branch
                    (authorEmailAt env pr cachePath (searchHistory pr cachePath branch tr))
                    (commitBodyAt env pr cachePath branch tr).stdout)]) e
        constructor
        · rintro ⟨he, hp⟩
          rcases List.mem_append.mp he with h | h
          · rw [hdone e h] at hp; cases hp
          · rcases List.mem_append.mp h with h | h
            · simp only [List.mem_cons, List.mem_singleton, List.not_mem_nil, or_false] at h
              rcases h with rfl | rfl
              · simp [isPush, emailArgs] at hp
              · simp [isPush, logCommand_eq] at hp
            · obtain ⟨h3, h4, h5⟩ := hcp.mp ⟨h, hp⟩
              exact ⟨h3, h4, rfl, rfl, rfl, h5⟩
        · rintro ⟨h3, h4, _, _, _, h5⟩
          obtain ⟨h6, h7⟩ := hcp.mpr ⟨h3, h4, h5⟩
          exact ⟨List.mem_append_right _ (List.mem_append_right _ h6), h7⟩
      · rw [searchStep_found env a pr cachePath branch _ _ hf]
        constructor
        · rintro ⟨he, hp⟩
          exfalso
          rcases List.mem_append.mp he with h | h
          · rw [hdone e h] at hp; cases hp
          · rcases List.mem_append.mp h with h | h
            · simp only [List.mem_cons, List.mem_singleton, List.not_mem_nil, or_false] at h
              rcases h with rfl | rfl
              · simp [isPush, emailArgs] at hp
              · simp [isPush, logCommand_eq] at hp
            · split_ifs at h
              · simp only [List.mem_singleton] at h; subst h; simp [isPush] at hp
              · simp at h
        · rintro ⟨_, _, _, _, h, _⟩
          cases h
    · rw [branchBody_body_failed env a pr cachePath branch tr h1 h2]
      constructor
      · rintro ⟨he, hp⟩
        exfalso
        rcases List.mem_append.mp he with h | h
        · rw [checkoutEvents_no_push cachePath branch e h] at hp; cases hp
        · simp only [List.mem_singleton] at h; subst h; simp [isPush, bodyArgs] at hp
      · rintro ⟨_, _, _, h, _⟩
        cases h
  · rw [branchBody_checkout_failed env a pr cachePath branch tr h1]
    constructor
    · rintro ⟨he, hp⟩
      rw [checkoutEvents_no_push cachePath branch e he] at hp
      cases hp
    · rintro ⟨_, _, h, _⟩
      cases h

theorem branchLoop_push_from_pass (env : Env) (a : Args) (pr : PullRequest)
    (cachePath : String) (specs : List String) :
    ∀ (found : Bool) (tr pre post : List Event) (e : Event),
      (branchLoop env a pr cachePath specs found tr).1 = pre ++ e :: post →
      ∃ branch pre1 pre2 post2, branch ∈ specResolve a.repo specs ∧ pre = pre1 ++ pre2
        ∧ (branchBody env a pr cachePath branch (tr ++ pre1)).1 = pre2 ++ e :: post2 := by
  induction specs with
  | nil => intro found tr pre post e h; simp [branchLoop] at h
  | cons spec rest ih =>
    intro found tr pre post e h
    cases hr : resolveSpec a.repo spec with
    | none =>
      have hr2 : specResolveOne a.repo spec = none := by rw [← resolveSpec_eq]; exact hr
      have hs : specResolve a.repo (spec :: rest) = specResolve a.repo rest := by
        simp [specResolve, List.filterMap_cons, hr2]
      rw [branchLoop_skip env a pr cachePath spec rest found tr hr] at h
      rw [hs]
      exact ih found tr pre post e h
    | some branch =>
      have hr2 : specResolveOne a.repo spec = some branch := by rw [← resolveSpec_eq]; exact hr
      have hs : specResolve a.repo (spec :: rest) = branch :: specResolve a.repo rest := by
        simp [specResolve, List.filterMap_cons, hr2]
      rw [hs]
      cases he : (branchBody env a pr cachePath branch tr).2 with
      | some err =>
        rw [branchLoop_abort env a pr cachePath spec branch rest found tr err hr he] at h
        exact ⟨branch, [], pre, post, List.mem_cons_self _ _, rfl, by simpa using h⟩
      | none =>
        rw [branchLoop_next env a pr cachePath spec branch rest found tr hr he] at h
        simp only at h
        rcases List.append_eq_append_iff.mp h with ⟨p2, h1, h2⟩ | ⟨c, h1, h2⟩
        · obtain ⟨b, q1, q2, post2, hb, hq, hbody⟩ := ih true _ p2 post e h2
          refine ⟨b, (branchBody env a pr cachePath branch tr).1 ++ q1, q2, post2,
            List.mem_cons_of_mem _ hb, ?_, ?_⟩
          · rw [h1, hq, List.append_assoc]
          · rw [← List.append_assoc]; exact hbody
        · cases c with
          | nil =>
            simp only [List.append_nil] at h1
            simp only [List.nil_append] at h2
            obtain ⟨b, q1, q2, post2, hb, hq, hbody⟩ := ih true _ [] post e h2.symm
            refine ⟨b, (branchBody env a pr cachePath branch tr).1 ++ q1, q2, post2,
              List.mem_cons_of_mem _ hb, ?_, ?_⟩
            · rw [← h1, List.append_assoc, ← hq, List.append_nil]
            · rw [← List.append_assoc]; exact hbody
          | cons y c =>
            simp only [List.cons_append, List.cons.injEq] at h2
            obtain ⟨rfl, _⟩ := h2
            exact ⟨branch, [], pre, c, List.mem_cons_self _ _, rfl, by simpa using h1⟩

theorem mergePR_push_from_pass (env : Env) (a : Args) (tr0 pre post : List Event) (e : Event)
    (h : (mergePR env a tr0).1 = pre ++ e :: post) (hp : isPush e = true) :
    ∃ pr branch pre1 pre2 post2,
      env.getPR (tr0 ++ (gitCloneRepo env (urlOf a) (cachePathOf a) tr0).1)
          a.org a.repo a.issueNum = some pr
        ∧ branch ∈ specResolve a.repo a.mergeTo ∧ pre = pre1 ++ pre2
        ∧ (branchBody env a pr (cachePathOf a) branch (tr0 ++ pre1)).1 = pre2 ++ e :: post2 := by
  have hmem : e ∈ (mergePR env a tr0).1 := by rw [h]; simp
  have hcl : ∀ x ∈ (gitCloneRepo env (urlOf a) (cachePathOf a) tr0).1, isPush x = false :=
    fun x hx => (gitCloneRepo_quiet env _ _ tr0 x hx).1
  unfold mergePR at h hmem
  simp only at h hmem
  split_ifs at h hmem with hc
  · rw [hcl e hmem] at hp; cases hp
  · cases hg : env.getPR (tr0 ++ (gitCloneRepo env (urlOf a) (cachePathOf a) tr0).1)
        a.org a.repo a.issueNum with
    | none =>
      rw [hg] at hmem
      simp only [List.mem_append, List.mem_singleton] at hmem
      rcases hmem with h1 | rfl
      · rw [hcl e h1] at hp; cases hp
      · simp [isPush] at hp
    | some pr =>
      rw [hg] at h
      simp only at h
      have hpre : e ∉ (gitCloneRepo env (urlOf a) (cachePathOf a) tr0).1
          ++ [Event.prGet a.org a.repo a.issueNum, Event.print (headerMessage a pr)] := by
        intro hm
        simp only [List.mem_append, List.mem_cons, List.mem_singleton, List.not_mem_nil,
          or_false] at hm
        rcases hm with h1 | rfl | rfl
        · rw [hcl e h1] at hp; cases hp
        · simp [isPush] at hp
        · simp [isPush] at hp
      obtain ⟨p2, hp2, hk⟩ := split_at_of_not_mem _ _ pre post e h hpre
      by_cases hs : pr.state = "closed"
      · have hloop : ∃ c, (branchLoop env a pr (cachePathOf a) a.mergeTo false
            (tr0 ++ ((gitCloneRepo env (urlOf a) (cachePathOf a) tr0).1
              ++ [Event.prGet a.org a.repo a.issueNum, Event.print (headerMessage a pr)]))).1
            = p2 ++ e :: c := by
          cases he : (branchLoop env a pr (cachePathOf a) a.mergeTo false
              (tr0 ++ ((gitCloneRepo env (urlOf a) (cachePathOf a) tr0).1
                ++ [Event.prGet a.org a.repo a.issueNum,
                  Event.print (headerMessage a pr)]))).2 with
          | some err =>
            rw [mergeKnownPR_abort env a pr _ _ err hs he] at hk
            exact ⟨post, hk⟩
          | none =>
            rw [mergeKnownPR_notify env a pr _ _ hs he] at hk
            simp only at hk
            refine split_left_of_not_mem _ _ p2 post e hk ?_
            intro hm
            have := notifyLoop_calls env a pr _ _ _ hm
            cases e <;> simp [isPush, isNotifierCall] at hp this
        obtain ⟨c, hc2⟩ := hloop
        obtain ⟨b, q1, q2, post2, hb, hq, hbody⟩ :=
          branchLoop_push_from_pass env a pr (cachePathOf a) a.mergeTo false _ p2 c e hc2
        refine ⟨pr, b, ((gitCloneRepo env (urlOf a) (cachePathOf a) tr0).1
            ++ [Event.prGet a.org a.repo a.issueNum, Event.print (headerMessage a pr)]) ++ q1,
          q2, post2, rfl, hb, ?_, ?_⟩
        · rw [hp2, hq]; simp only [List.append_assoc]
        · rw [← List.append_assoc]; exact hbody
      · rw [mergeKnownPR_open env a pr _ _ hs] at hk
        simp at hk

/-- C4, as amended: in every run of `mergePR` every push is the push of a
resolved target branch issued by the pass of the branch loop on that branch,
in a run that is not a dry run, after a history search that did not find the
merge commit and a cherry-pick whose diagnostic is not fatal; nothing else in
the run pushes.  The pass on a branch pushes exactly when the run is not a dry
run, the checkout and the reading of the commit message succeed, the commit
message check does not find the merge commit and the diagnostic of the
cherry-pick is not fatal: so after a clean apply, and also after an empty
cherry-pick and after a conflict, never in a dry run and never for a branch
the commit message check finds merged.  The effects of the pass on a branch
the loop reaches are effects of the run. -/
theorem push_issued_iff (env : Env) (a : Args) (tr0 : List Event) :
    (∀ pre post e, (mergePR env a tr0).1 = pre ++ e :: post → isPush e = true →
        ∃ pr branch pre1 pre2 post2,
          env.getPR (tr0 ++ (gitCloneRepo env (urlOf a) (cachePathOf a) tr0).1)
              a.org a.repo a.issueNum = some pr
            ∧ branch ∈ specResolve a.repo a.mergeTo ∧ pre = pre1 ++ pre2
            ∧ (branchBody env a pr (cachePathOf a) branch (tr0 ++ pre1)).1
                = pre2 ++ e :: post2
            ∧ e = pushEvent (cachePathOf a) branch ∧ a.dryRun = false
            ∧ searchFound (passSearchAt env pr (cachePathOf a) branch (tr0 ++ pre1)) = false
            ∧ specCherryPickOutcome
                (passCherryPickAt env pr (cachePathOf a) branch (tr0 ++ pre1)).stderr
                ≠ MergeOutcome.Fatal)
      ∧ (∀ pr cachePath branch tr e,
          (e ∈ (branchBody env a pr cachePath branch tr).1 ∧ isPush e = true)
            ↔ (e = pushEvent cachePath branch ∧ a.dryRun = false
                ∧ (checkoutResultAt env cachePath branch tr).failed = false
                ∧ (commitBodyAt env pr cachePath branch tr).failed = false
                ∧ searchFound (passSearchAt env pr cachePath branch tr) = false
                ∧ specCherryPickOutcome (passCherryPickAt env pr cachePath branch tr).stderr
                    ≠ MergeOutcome.Fatal))
      ∧ (∀ pr cachePath branch sr tr e,
          (e ∈ (afterSearch env a pr cachePath branch sr tr).1 ∧ isPush e = true)
            ↔ (e = pushEvent cachePath branch ∧ a.dryRun = false ∧ searchFound sr = false
                ∧ specCherryPickOutcome (env.git tr cachePath (cherryPickArgs pr)).stderr
                    ≠ MergeOutcome.Fatal))
      ∧ (∀ pr cachePath spec rest found tr branch, resolveSpec a.repo spec = some branch →
          ∃ post, (branchLoop env a pr cachePath (spec :: rest) found tr).1
            = (branchBody env a pr cachePath branch tr).1 ++ post) := by
  refine ⟨?_, fun pr cachePath branch tr e => branchBody_push env a pr cachePath branch tr e,
    fun pr cachePath branch sr tr e => afterSearch_push env a pr cachePath branch sr tr e, ?_⟩
  · intro pre post e h hp
    obtain ⟨pr, branch, pre1, pre2, post2, hg, hb, hpre, hbody⟩ :=
      mergePR_push_from_pass env a tr0 pre post e h hp
    have hmem : e ∈ (branchBody env a pr (cachePathOf a) branch (tr0 ++ pre1)).1 := by
      rw [hbody]; simp
    obtain ⟨h1, h2, _, _, h5, h6⟩ :=
      (branchBody_push env a pr (cachePathOf a) branch (tr0 ++ pre1) e).mp ⟨hmem, hp⟩
    exact ⟨pr, branch, pre1, pre2, post2, hg, hb, hpre, hbody, h1, h2, h5, h6⟩
  · intro pr cachePath spec rest found tr branch hr
    cases he : (branchBody env a pr cachePath branch tr).2 with
    | some err =>
      rw [branchLoop_abort env a pr cachePath spec branch rest found tr err hr he]
      exact ⟨[], by simp⟩
    | none =>
      rw [branchLoop_next env a pr cachePath spec branch rest found tr hr he]
      exact ⟨_, rfl⟩

/-- Witness of C4 as amended: the push of `release-2.0` in the run where the
cherry-pick on `release-1.0` stops on a conflict and the one on `release-2.0`
applies cleanly. -/
theorem push_issued_iff_witness :
    pushEvent "/tmp/git_cache/Org/serviceA" "release-2.0"
        ∈ (mergePR (demoEnv "Fix bug A" gitOk gitUpToDate "release-1.0") (demoArgs false) []).1
      ∧ (demoArgs false).dryRun = false
      ∧ ∃ branch ∈ specResolve "serviceA" ["release-1.0", "release-2.0"],
          pushEvent "/tmp/git_cache/Org/serviceA" "release-2.0"
            = pushEvent "/tmp/git_cache/Org/serviceA" branch := by
  refine ⟨by decide, ?_⟩
  obtain ⟨_, branch, _, _, _, _, hb, _, _, he, hd, _⟩ :=
    (push_issued_iff (demoEnv "Fix bug A" gitOk gitUpToDate "release-1.0") (demoArgs false) []).1
      (List.take 22
        (mergePR (demoEnv "Fix bug A" gitOk gitUpToDate "release-1.0") (demoArgs false) []).1)
      (List.drop 23
        (mergePR (demoEnv "Fix bug A" gitOk gitUpToDate "release-1.0") (demoArgs false) []).1)
      (pushEvent "/tmp/git_cache/Org/serviceA" "release-2.0") (by decide) (by decide)
  exact ⟨hd, branch, hb, he⟩

/-! ## A conflict does not end the run -/

theorem pushStep_stdout_empty (env : Env) (a : Args) (cachePath branch : String)
    (tr : List Event)
    (hgit : ∀ h, (env.git h cachePath ["push", "origin", branch]).stdout = "") :
    (pushStep env a cachePath branch tr).2 = none := by
  have e1 : Contains "" "Everything up-to-date" = false := by decide
  unfold pushStep pushVerdict
  split_ifs <;> simp_all

theorem branchBody_no_push_error (env : Env) (a : Args) (pr : PullRequest)
    (cachePath branch : String) (tr : List Event)
    (hgit : ∀ h, (env.git h cachePath ["push", "origin", branch]).stdout = "") :
    ∀ se so, (branchBody env a pr cachePath branch tr).2 ≠ some (MergeError.push se so) := by
  intro se so
  have hcp : ∀ h, (cherryPickStep env a pr cachePath branch h).2
      ≠ some (MergeError.push se so) := by
    intro h hres
    unfold cherryPickStep at hres
    simp only at hres
    rw [cherryPickReport_error] at hres
    split_ifs at hres
    · simp at hres
    · simp only at hres
      rw [pushStep_stdout_empty env a cachePath branch _ hgit] at hres
      cases hres
  unfold branchBody
  simp only
  split_ifs
  · simp
  · simp
  · unfold searchStep afterSearch
    simp only
    split_ifs
    · simp
    · simp
    · exact hcp _

theorem branchBody_conflict_ok (env : Env) (a : Args) (pr : PullRequest)
    (cachePath branch : String) (tr : List Event)
    (hgit : ∀ h, (env.git h cachePath ["push", "origin", branch]).stdout = "")
    (hc : conflictReported branch (branchBody env a pr cachePath branch tr).1) :
    (branchBody env a pr cachePath branch tr).2 = none := by
  rcases branchBody_after_conflict env a pr cachePath branch tr hc with h | ⟨_, se, so, h⟩
  · exact h
  · exact absurd h (branchBody_no_push_error env a pr cachePath branch tr hgit se so)

theorem branchLoop_found_irrelevant (env : Env) (a : Args) (pr : PullRequest)
    (cachePath : String) (specs : List String) :
    ∀ (f1 f2 : Bool) (tr : List Event),
      branchLoop env a pr cachePath specs f1 tr = branchLoop env a pr cachePath specs f2 tr := by
  induction specs with
  | nil => intro f1 f2 tr; rfl
  | cons spec rest ih =>
    intro f1 f2 tr
    cases hr : resolveSpec a.repo spec with
    | none =>
      rw [branchLoop_skip env a pr cachePath spec rest f1 tr hr,
        branchLoop_skip env a pr cachePath spec rest f2 tr hr]
      exact ih f1 f2 tr
    | some branch =>
      cases he : (branchBody env a pr cachePath branch tr).2 with
      | some e =>
        rw [branchLoop_abort env a pr cachePath spec branch rest f1 tr e hr he,
          branchLoop_abort env a pr cachePath spec branch rest f2 tr e hr he]
      | none =>
        rw [branchLoop_next env a pr cachePath spec branch rest f1 tr hr he,
          branchLoop_next env a pr cachePath spec branch rest f2 tr hr he]

theorem branchLoop_append (env : Env) (a : Args) (pr : PullRequest) (cachePath : String)
    (l1 l2 : List String) :
    ∀ (found : Bool) (tr : List Event),
      (branchLoop env a pr cachePath l1 found tr).2 = none →
      branchLoop env a pr cachePath (l1 ++ l2) found tr
        = ((branchLoop env a pr cachePath l1 found tr).1
            ++ (branchLoop env a pr cachePath l2 found
                  (tr ++ (branchLoop env a pr cachePath l1 found tr).1)).1,
          (branchLoop env a pr cachePath l2 found
            (tr ++ (branchLoop env a pr cachePath l1 found tr).1)).2) := by
  induction l1 with
  | nil => intro found tr _; simp [branchLoop]
  | cons spec rest ih =>
    intro found tr h
    cases hr : resolveSpec a.repo spec with
    | none =>
      rw [branchLoop_skip env a pr cachePath spec rest found tr hr] at h ⊢
      rw [List.cons_append, branchLoop_skip env a pr cachePath spec _ found tr hr]
      exact ih found tr h
    | some branch =>
      cases he : (branchBody env a pr cachePath branch tr).2 with
      | some e =>
        rw [branchLoop_abort env a pr cachePath spec branch rest found tr e hr he] at h
        cases h
      | none =>
        rw [branchLoop_next env a pr cachePath spec branch rest found tr hr he] at h ⊢
        rw [List.cons_append, branchLoop_next env a pr cachePath spec branch _ found tr hr he,
          ih true _ h,
          branchLoop_found_irrelevant env a pr cachePath l2 found true]
        simp only [List.append_assoc]

theorem mergePR_loop (env : Env) (a : Args) (pr : PullRequest) (tr0 : List Event)
    (hcl : (gitCloneRepo env (urlOf a) (cachePathOf a) tr0).2 = false)
    (hpr : env.getPR (tr0 ++ (gitCloneRepo env (urlOf a) (cachePathOf a) tr0).1)
      a.org a.repo a.issueNum = some pr)
    (hclosed : pr.state = "closed") :
    (mergePR env a tr0).2
        = (branchLoop env a pr (cachePathOf a) a.mergeTo false (loopStart env a pr tr0)).2
      ∧ ∃ post, (mergePR env a tr0).1
          = (eventsBeforeLoop env a pr tr0
              ++ (branchLoop env a pr (cachePathOf a) a.mergeTo false
                    (loopStart env a pr tr0)).1) ++ post := by
  unfold mergePR loopStart eventsBeforeLoop
  simp only [hcl, Bool.false_eq_true, if_false, hpr]
  cases he : (branchLoop env a pr (cachePathOf a) a.mergeTo false
      (tr0 ++ ((gitCloneRepo env (urlOf a) (cachePathOf a) tr0).1
        ++ [Event.prGet a.org a.repo a.issueNum, Event.print (headerMessage a pr)]))).2 with
  | some e =>
    rw [mergeKnownPR_abort env a pr _ _ e hclosed he]
    exact ⟨rfl, [], by simp⟩
  | none =>
    rw [mergeKnownPR_notify env a pr _ _ hclosed he]
    exact ⟨rfl, _, (List.append_assoc _ _ _).symm⟩

/-- C9: in a run of `mergePR` on a closed pull request whose git prints nothing
on the standard output of the push of the branch (git reports a push on its
standard error), when the branch loop reaches a resolved branch and the
cherry-pick on it yields the conflict outcome (the conflict is reported, which
happens exactly when the diagnostic contains `error: could not apply` and not
`allow-empty`), the pass of that branch returns no error and the next resolved
branch is attempted: its pass, which starts by checking it out, follows in the
effects of the run, and the error `mergePR` returns is the one of the loop
from that next branch on, so the one of its pass when that pass returns one. -/
theorem conflict_does_not_abort (env : Env) (a : Args) (pr : PullRequest) (tr0 : List Event)
    (front mid rest : List String) (spec1 spec2 b1 b2 : String)
    (hgit : ∀ h, (env.git h (cachePathOf a) ["push", "origin", b1]).stdout = "")
    (hcl : (gitCloneRepo env (urlOf a) (cachePathOf a) tr0).2 = false)
    (hpr : env.getPR (tr0 ++ (gitCloneRepo env (urlOf a) (cachePathOf a) tr0).1)
      a.org a.repo a.issueNum = some pr)
    (hclosed : pr.state = "closed")
    (hspecs : a.mergeTo = front ++ spec1 :: (mid ++ spec2 :: rest))
    (hfront : (branchLoop env a pr (cachePathOf a) front false (loopStart env a pr tr0)).2 = none)
    (h1 : resolveSpec a.repo spec1 = some b1)
    (hmid : ∀ s ∈ mid, resolveSpec a.repo s = none)
    (h2 : resolveSpec a.repo spec2 = some b2)
    (hc : conflictReported b1
      (branchBody env a pr (cachePathOf a) b1 (historyAfter env a pr tr0 front)).1) :
    (∀ r, conflictReported b1 (cherryPickReport a pr (cachePathOf a) b1 r).1
        ↔ specCherryPickOutcome r.stderr = MergeOutcome.Conflict)
      ∧ (branchBody env a pr (cachePathOf a) b1 (historyAfter env a pr tr0 front)).2 = none
      ∧ (mergePR env a tr0).2
          = (branchLoop env a pr (cachePathOf a) (spec2 :: rest) true
              (historyAfter env a pr tr0 front
                ++ (branchBody env a pr (cachePathOf a) b1
                      (historyAfter env a pr tr0 front)).1)).2
      ∧ (∃ post2,
          (branchBody env a pr (cachePathOf a) b2
              (historyAfter env a pr tr0 front
                ++ (branchBody env a pr (cachePathOf a) b1
                      (historyAfter env a pr tr0 front)).1)).1
            = checkoutEvents (cachePathOf a) b2 ++ post2)
      ∧ (∃ post,
          (mergePR env a tr0).1
            = (((eventsBeforeLoop env a pr tr0
                  ++ (branchLoop env a pr (cachePathOf a) front false
                        (loopStart env a pr tr0)).1)
                ++ (branchBody env a pr (cachePathOf a) b1
                      (historyAfter env a pr tr0 front)).1)
                ++ (branchBody env a pr (cachePathOf a) b2
                      (historyAfter env a pr tr0 front
                        ++ (branchBody env a pr (cachePathOf a) b1
                              (historyAfter env a pr tr0 front)).1)).1) ++ post)
      ∧ (∀ e,
          (branchBody env a pr (cachePathOf a) b2
              (historyAfter env a pr tr0 front
                ++ (branchBody env a pr (cachePathOf a) b1
                      (historyAfter env a pr tr0 front)).1)).2 = some e →
          (mergePR env a tr0).2 = some e) := by
  have hb1 := branchBody_conflict_ok env a pr (cachePathOf a) b1 _ hgit hc
  obtain ⟨hres, post0, hev⟩ := mergePR_loop env a pr tr0 hcl hpr hclosed
  have hloop : branchLoop env a pr (cachePathOf a) a.mergeTo false (loopStart env a pr tr0)
      = ((branchLoop env a pr (cachePathOf a) front false (loopStart env a pr tr0)).1
          ++ ((branchBody env a pr (cachePathOf a) b1 (historyAfter env a pr tr0 front)).1
              ++ (branchLoop env a pr (cachePathOf a) (spec2 :: rest) true
                    (historyAfter env a pr tr0 front
                      ++ (branchBody env a pr (cachePathOf a) b1
                            (historyAfter env a pr tr0 front)).1)).1),
        (branchLoop env a pr (cachePathOf a) (spec2 :: rest) true
          (historyAfter env a pr tr0 front
            ++ (branchBody env a pr (cachePathOf a) b1
                  (historyAfter env a pr tr0 front)).1)).2) := by
    rw [hspecs, branchLoop_append env a pr (cachePathOf a) front _ false _ hfront]
    have hn := branchLoop_next env a pr (cachePathOf a) spec1 b1 (mid ++ spec2 :: rest) false
      (historyAfter env a pr tr0 front) h1 hb1
    rw [branchLoop_skips env a pr (cachePathOf a) mid _ true _ hmid] at hn
    unfold historyAfter at hn ⊢
    rw [hn]
  obtain ⟨post2, hpost2, _⟩ := branchBody_events env a pr (cachePathOf a) b2
    (historyAfter env a pr tr0 front
      ++ (branchBody env a pr (cachePathOf a) b1 (historyAfter env a pr tr0 front)).1)
  have hhead : ∃ post,
      (branchLoop env a pr (cachePathOf a) (spec2 :: rest) true
        (historyAfter env a pr tr0 front
          ++ (branchBody env a pr (cachePathOf a) b1 (historyAfter env a pr tr0 front)).1)).1
        = (branchBody env a pr (cachePathOf a) b2
            (historyAfter env a pr tr0 front
              ++ (branchBody env a pr (cachePathOf a) b1
                    (historyAfter env a pr tr0 front)).1)).1 ++ post := by
    cases he : (branchBody env a pr (cachePathOf a) b2
        (historyAfter env a pr tr0 front
          ++ (branchBody env a pr (cachePathOf a) b1
                (historyAfter env a pr tr0 front)).1)).2 with
    | some e =>
      rw [branchLoop_abort env a pr (cachePathOf a) spec2 b2 rest true _ e h2 he]
      exact ⟨[], by simp⟩
    | none =>
      rw [branchLoop_next env a pr (cachePathOf a) spec2 b2 rest true _ h2 he]
      exact ⟨_, rfl⟩
  refine ⟨cherryPickReport_conflictReported a pr (cachePathOf a) b1, hb1, ?_, ⟨post2, hpost2⟩,
    ?_, ?_⟩
  · rw [hres, hloop]
  · obtain ⟨post, hpost⟩ := hhead
    refine ⟨post ++ post0, ?_⟩
    rw [hev, hloop]
    simp only [hpost, List.append_assoc]
  · intro e he
    rw [hres, hloop]
    simp only
    rw [branchLoop_abort env a pr (cachePathOf a) spec2 b2 rest true _ e h2 he]

/-- Witness of C9: the run on `main`, `release-1.0`, a spec of another
repository and `release-2.0`, where the cherry-pick on `release-1.0` stops on
a conflict and the push has nothing to push: the run returns no error and
checks out `release-2.0` after `release-1.0`. -/
theorem conflict_does_not_abort_witness :
    conflictReported "release-1.0"
        (branchBody (demoEnv "Fix bug A" gitOk gitUpToDate "release-1.0")
          { demoArgs false with
            mergeTo := ["main", "release-1.0", "serviceB:release-9", "release-2.0"] }
          demoPR "/tmp/git_cache/Org/serviceA" "release-1.0"
          (historyAfter (demoEnv "Fix bug A" gitOk gitUpToDate "release-1.0")
            { demoArgs false with
              mergeTo := ["main", "release-1.0", "serviceB:release-9", "release-2.0"] }
            demoPR [] ["main"])).1
      ∧ (branchBody (demoEnv "Fix bug A" gitOk gitUpToDate "release-1.0")
          { demoArgs false with
            mergeTo := ["main", "release-1.0", "serviceB:release-9", "release-2.0"] }
          demoPR "/tmp/git_cache/Org/serviceA" "release-1.0"
          (historyAfter (demoEnv "Fix bug A" gitOk gitUpToDate "release-1.0")
            { demoArgs false with
              mergeTo := ["main", "release-1.0", "serviceB:release-9", "release-2.0"] }
            demoPR [] ["main"])).2 = none
      ∧ (mergePR (demoEnv "Fix bug A" gitOk gitUpToDate "release-1.0")
          { demoArgs false with
            mergeTo := ["main", "release-1.0", "serviceB:release-9", "release-2.0"] } []).2 = none
      ∧ checkedOut (mergePR (demoEnv "Fix bug A" gitOk gitUpToDate "release-1.0")
          { demoArgs false with
            mergeTo := ["main", "release-1.0", "serviceB:release-9", "release-2.0"] } []).1
          = ["main", "release-1.0", "release-2.0"] :=
  ⟨⟨"/tmp/git_cache/Org/serviceA", Or.inl (by decide)⟩,
    (conflict_does_not_abort (demoEnv "Fix bug A" gitOk gitUpToDate "release-1.0")
      { demoArgs false with
        mergeTo := ["main", "release-1.0", "serviceB:release-9", "release-2.0"] }
      demoPR [] ["main"] ["serviceB:release-9"] [] "release-1.0" "release-2.0"
      "release-1.0" "release-2.0" (fun _ => rfl) (by decide) rfl (by decide) rfl (by decide)
      (by decide) (by decide) (by decide)
      ⟨"/tmp/git_cache/Org/serviceA", Or.inl (by decide)⟩).2.1,
    by decide, by decide⟩
